import Mathlib

/-!
# Verification of the clfd statistical detection-and-replacement engine

This file gives a shallow embedding, in Lean 4, of the core algorithms of the
`clfd` package (profile masking, time-phase spike finding and replacement,
data-cube construction, the feature registry, and result serialization), and
proves or refutes the specification claims about them.

Modelling conventions:

* Machine floating-point numbers are modelled as exact rationals (`ℚ`).  All
  concrete inputs used in witnesses and counterexamples are chosen so that the
  corresponding numpy computation is exact in binary floating point as well
  (small integers, and interpolation fractions with denominators 2 and 4).
* A 3D numpy array of shape `(ns, nc, nb)` is modelled as a total function
  `Fin ns → Fin nc → Fin nb → ℚ`; 2D boolean arrays become
  `Fin ns → Fin nc → Bool`, and so on.  Shape facts of the original arrays
  are therefore carried by the types.
* `np.percentile(a, p)` (linear-interpolation method, the default) is modelled
  by `npPercentile`; the code only ever calls it with `p ∈ {25, 50, 75}`, so
  the percentile argument is a natural number.  `np.median` is modelled by
  `npMedian` (middle element, or mean of the two middle elements).
* Python exceptions are modelled by `Except ClfdError`.  The error
  constructors are named after the spec's error taxonomy: the `ValueError`
  raised for malformed cube geometry is `shapeError`, the `ValueError` raised
  when all channels are zapped is `configurationError`, the `KeyError` raised
  by the feature registry is `featureNotFound`, and the `TypeError` raised by
  `functools.reduce` on an empty sequence is `emptyReduceError`.
* Feature functions reduce the trailing (phase) axis, i.e. they map one
  profile `List ℚ → ℚ`.  `profile_mask` is parametric in the feature
  registry, exactly as the Python code is (it only accesses features through
  `get_feature`).  The concrete features `acf`, `skew` and `kurtosis` are
  modelled explicitly insofar as claims depend on them; the value of the
  non-degenerate branch of `skew` (`m3 / m2 ** 1.5`) is irrational-valued
  over ℚ and enters as a parameter, since no claim depends on it.
-/

/-- Error taxonomy of the spec, covering the exceptions raised by the core:
`shapeError` for malformed cube geometry, `configurationError` for the
"all channels zapped" condition, `featureNotFound` for unknown feature names
(the Python `KeyError` carries the offending name), and `emptyReduceError`
for `functools.reduce` applied to an empty sequence of feature masks. -/
inductive ClfdError where
  | shapeError : ClfdError
  | configurationError : ClfdError
  | featureNotFound : String → ClfdError
  | emptyReduceError : ClfdError
deriving DecidableEq, Repr

/-- Ascending sort, as performed internally by `np.percentile` / `np.median`
and by Python's `sorted`. -/
def npSorted (xs : List ℚ) : List ℚ :=
  List.insertionSort (· ≤ ·) xs

/-- Linear interpolation of a sorted list `s` at the virtual index
`num / 100`: with `lo = ⌊num/100⌋` and `frac = (num % 100)/100`, this is
`s[lo] + frac * (s[lo+1] - s[lo])`.  This matches numpy's default
(`linear`) interpolation of order statistics; out-of-range reads use a
default of `0`, but are only ever multiplied by a zero fraction when the
virtual index stays within `[0, len - 1]`. -/
def interpAt (s : List ℚ) (num : ℕ) : ℚ :=
  s.getD (num / 100) 0 +
    ((num % 100 : ℕ) : ℚ) / 100 * (s.getD (num / 100 + 1) 0 - s.getD (num / 100) 0)

/-- `np.percentile(xs, p)` with the default linear interpolation:
the virtual index is `p * (n - 1) / 100`. -/
def npPercentile (xs : List ℚ) (p : ℕ) : ℚ :=
  interpAt (npSorted xs) (p * (xs.length - 1))

/-- `np.median(xs)`: the middle element of the sorted list for odd length,
the mean of the two middle elements for even length. -/
def npMedian (xs : List ℚ) : ℚ :=
  let s := npSorted xs
  let n := s.length
  if n % 2 = 1 then s.getD (n / 2) 0
  else (s.getD (n / 2 - 1) 0 + s.getD (n / 2) 0) / 2

/-- Quantiles of a population, as in `clfd.profile_masking.Stats`. -/
structure Stats where
  q1 : ℚ
  med : ℚ
  q3 : ℚ
deriving DecidableEq, Repr

/-- `Stats.iqr`. -/
def Stats.iqr (s : Stats) : ℚ := s.q3 - s.q1

/-- `Stats.vmin`: `q1 - q * iqr`. -/
def Stats.vmin (s : Stats) (q : ℚ) : ℚ := s.q1 - q * s.iqr

/-- `Stats.vmax`: `q3 + q * iqr`. -/
def Stats.vmax (s : Stats) (q : ℚ) : ℚ := s.q3 + q * s.iqr

/-- `make_feature_stats` without the column selection: 25th/50th/75th
percentiles of a flat population. -/
def makeStats (xs : List ℚ) : Stats :=
  { q1 := npPercentile xs 25, med := npPercentile xs 50, q3 := npPercentile xs 75 }

/-- Tukey outlier test against given `Stats`: `(x < vmin) | (x > vmax)`. -/
def flagVal (st : Stats) (q : ℚ) (a : ℚ) : Bool :=
  decide (a < st.vmin q) || decide (st.vmax q < a)

/-- A 3D data cube of shape `(num_subints, num_chans, num_bins)`. -/
def Cube (ns nc nb : ℕ) : Type := Fin ns → Fin nc → Fin nb → ℚ

/-- The phase series of one profile, `cube[i, c, :]`. -/
def profileOf {ns nc nb : ℕ} (cube : Cube ns nc nb) (i : Fin ns) (c : Fin nc) : List ℚ :=
  List.ofFn (cube i c)

/-- `make_in_bounds_zap_indices_and_mask`, first component:
`[i for i in zap_channels if i in range(0, num_chan)]`.  Out-of-range
indices are silently dropped; duplicates and ordering are preserved. -/
def inBoundsZap (zap : List ℤ) (nc : ℕ) : List ℤ :=
  zap.filter (fun i => decide (0 ≤ i) && decide (i < (nc : ℤ)))

/-- `make_in_bounds_zap_indices_and_mask`, second component: the boolean
zap mask of length `num_chan` (`True` at each in-bounds requested index). -/
def zapMaskOf (zap : List ℤ) (nc : ℕ) : Fin nc → Bool :=
  fun c => (inBoundsZap zap nc).contains ((c : ℕ) : ℤ)

/-- A profile feature: reduces the trailing (phase) axis to a scalar. -/
def FeatureFn : Type := List ℚ → ℚ

/-- The feature registry: a name → function table
(`clfd.features.register.AVAILABLE_FEATURES`). -/
def FeatureRegistry : Type := List (String × FeatureFn)

/-- `get_feature`: dictionary lookup by name. -/
def getFeature (registry : FeatureRegistry) (name : String) : Option FeatureFn :=
  List.lookup name registry

/-- The names registered at import time by `clfd.features`, in registration
order: `for func in (acf, kurtosis, lfamp, ptp, skew, std, var)`. -/
def availableFeatureNames : List String :=
  ["acf", "kurtosis", "lfamp", "ptp", "skew", "std", "var"]

/-- Resolve a list of feature names against the registry, failing on the
first unknown name with the `KeyError` of `get_feature` (modelled as
`featureNotFound`).  This models the dictionary comprehension in
`make_feature_values_dict`, which evaluates `get_feature(name)` for each
requested name and fails fast. -/
def resolveFeatures (registry : FeatureRegistry) :
    List String → Except ClfdError (List (String × FeatureFn))
  | [] => .ok []
  | name :: rest =>
    match getFeature registry name with
    | none => .error (.featureNotFound name)
    | some f =>
      match resolveFeatures registry rest with
      | .error e => .error e
      | .ok tail => .ok ((name, f) :: tail)

/-- Result record of `profile_mask` (`clfd.profile_masking.ProfileMaskingResult`).
The 2D arrays become functions of the two indices. -/
structure ProfileMaskingResult (ns nc : ℕ) where
  q : ℚ
  zap_channels : List ℤ
  feature_values : List (String × (Fin ns → Fin nc → ℚ))
  feature_stats : List (String × Stats)
  mask : Fin ns → Fin nc → Bool

/-- `feature_values[:, keep_mask]` flattened in row-major order, i.e. the
population over which `make_feature_stats` takes percentiles: all subints,
restricted to the kept (non-zapped) channels. -/
def popList {ns nc : ℕ} (vals : Fin ns → Fin nc → ℚ) (keep : Fin nc → Bool) : List ℚ :=
  ((List.finRange ns).map (fun i => ((List.finRange nc).filter keep).map (fun c => vals i c))).flatten

/-- `make_feature_mask`: `(feature_values < vmin) | (feature_values > vmax)`. -/
def makeFeatureMask {ns nc : ℕ} (vals : Fin ns → Fin nc → ℚ) (st : Stats) (q : ℚ) :
    Fin ns → Fin nc → Bool :=
  fun i c => flagVal st q (vals i c)

/-- Pointwise `np.logical_or` of two 2D boolean masks. -/
def orMask {ns nc : ℕ} (a b : Fin ns → Fin nc → Bool) : Fin ns → Fin nc → Bool :=
  fun i c => a i c || b i c

/-- `np.logical_not(zap_mask)`: the kept (non-zapped) channels. -/
def pmKeep (zap : List ℤ) (nc : ℕ) : Fin nc → Bool :=
  fun c => ! (inBoundsZap zap nc).contains ((c : ℕ) : ℤ)

/-- `make_feature_values_dict` after name resolution: each resolved feature
evaluated over every profile of the cube. -/
def pmFeatureValues {ns nc nb : ℕ} (cube : Cube ns nc nb)
    (named : List (String × FeatureFn)) : List (String × (Fin ns → Fin nc → ℚ)) :=
  named.map (fun nf => (nf.1, fun i c => nf.2 (profileOf cube i c)))

/-- `make_feature_stats_dict`: per-feature `Stats` over the kept-channel
population. -/
def pmFeatureStats {ns nc nb : ℕ} (cube : Cube ns nc nb) (zap : List ℤ)
    (named : List (String × FeatureFn)) : List (String × Stats) :=
  (pmFeatureValues cube named).map
    (fun nv => (nv.1, makeStats (popList nv.2 (pmKeep zap nc))))

/-- `make_feature_masks`: the per-feature Tukey masks, pairing each feature's
values with its stats by name (the dictionaries share their key order). -/
def pmMasks {ns nc nb : ℕ} (cube : Cube ns nc nb) (q : ℚ) (zap : List ℤ)
    (named : List (String × FeatureFn)) : List (Fin ns → Fin nc → Bool) :=
  ((pmFeatureValues cube named).zip (pmFeatureStats cube zap named)).map
    (fun p => makeFeatureMask p.1.2 p.2.2 q)

/-- `profile_mask(cube, features, q, zap_channels)`
(`clfd.profile_masking.profile_mask`), parametric in the feature registry.
Steps, in source order: resolve the zap list and fail when the filtered list
has length `num_chans`; resolve the feature names (fail-fast on the first
unknown name; the dictionary keys are the de-duplicated names); evaluate
each feature over the cube; compute per-feature `Stats` over the non-zapped
channel population; build per-feature Tukey masks; `functools.reduce` them
with `np.logical_or` (a `TypeError` on an empty sequence); finally force
zapped columns to `True`.  The result's `zap_channels` is
`sorted(zap_channels)` of the in-bounds filtered list. -/
def profileMask (registry : FeatureRegistry) {ns nc nb : ℕ} (cube : Cube ns nc nb)
    (features : List String) (q : ℚ) (zap : List ℤ) :
    Except ClfdError (ProfileMaskingResult ns nc) :=
  let filtered := inBoundsZap zap nc
  if filtered.length = nc then .error .configurationError
  else
    match resolveFeatures registry features.dedup with
    | .error e => .error e
    | .ok named =>
      match pmMasks cube q zap named with
      | [] => .error .emptyReduceError
      | m0 :: rest =>
        let combined := rest.foldl orMask m0
        .ok { q := q
              zap_channels := List.insertionSort (· ≤ ·) filtered
              feature_values := pmFeatureValues cube named
              feature_stats := pmFeatureStats cube zap named
              mask := fun i c => if filtered.contains ((c : ℕ) : ℤ) then true else combined i c }

/-- Result record of `find_time_phase_spikes`
(`clfd.spike_finding.SpikeFindingResult`). -/
structure SpikeFindingResult (ns nb : ℕ) where
  q : ℚ
  zap_channels : List ℤ
  mask : Fin ns → Fin nb → Bool

/-- Replacement plan of `find_time_phase_spikes`
(`clfd.spike_finding.SpikeSubtractionPlan`). -/
structure SpikeSubtractionPlan (ns nc nb : ℕ) where
  valid_channels : List (Fin nc)
  mask : Fin ns → Fin nb → Bool
  replacement_values : Fin ns → Fin nc → Fin nb → ℚ

/-- `np.where(keep_mask)` for the channel axis: the ascending list of
non-zapped channel indices. -/
def tpValidChannels (nc : ℕ) (zap : List ℤ) : List (Fin nc) :=
  (List.finRange nc).filter (fun c => ! (inBoundsZap zap nc).contains ((c : ℕ) : ℤ))

/-- `np.median(cube, axis=2)`: per-profile baselines of the raw cube. -/
def tpBaselines {ns nc nb : ℕ} (cube : Cube ns nc nb) : Fin ns → Fin nc → ℚ :=
  fun i c => npMedian (profileOf cube i c)

/-- `subtracted_data[:, keep_mask, :].sum(axis=1)`: the time-phase plane,
the baseline-subtracted cube summed over the valid channels. -/
def tpSubints {ns nc nb : ℕ} (cube : Cube ns nc nb) (zap : List ℤ) :
    Fin ns → Fin nb → ℚ :=
  fun i j => ((tpValidChannels nc zap).map (fun c => cube i c j - tpBaselines cube i c)).sum

/-- `np.percentile(subints, [25, 50, 75], axis=0)`: per-phase-bin quantiles
along the subint axis. -/
def tpStats {ns nc nb : ℕ} (cube : Cube ns nc nb) (zap : List ℤ) : Fin nb → Stats :=
  fun j => makeStats (List.ofFn (fun i => tpSubints cube zap i j))

/-- `(subints < vmin) | (subints > vmax)`: the time-phase mask. -/
def tpMask {ns nc nb : ℕ} (cube : Cube ns nc nb) (q : ℚ) (zap : List ℤ) :
    Fin ns → Fin nb → Bool :=
  fun i j => flagVal (tpStats cube zap j) q (tpSubints cube zap i j)

/-- `repvals = baselines + med / len(valid_channels)`. -/
def tpRepvals {ns nc nb : ℕ} (cube : Cube ns nc nb) (zap : List ℤ) :
    Fin ns → Fin nc → Fin nb → ℚ :=
  fun i c j => tpBaselines cube i c + (tpStats cube zap j).med / ((tpValidChannels nc zap).length : ℚ)

/-- `find_time_phase_spikes(cube, q, zap_channels)`
(`clfd.spike_finding.find_time_phase_spikes`).  The result's
`zap_channels` is `list(zap_channels)` of the in-bounds filtered list
(neither sorted nor de-duplicated). -/
def findTimePhaseSpikes {ns nc nb : ℕ} (cube : Cube ns nc nb) (q : ℚ) (zap : List ℤ) :
    Except ClfdError (SpikeFindingResult ns nb × SpikeSubtractionPlan ns nc nb) :=
  let filtered := inBoundsZap zap nc
  if filtered.length = nc then .error .configurationError
  else
    .ok ({ q := q, zap_channels := filtered, mask := tpMask cube q zap },
         { valid_channels := tpValidChannels nc zap
           mask := tpMask cube q zap
           replacement_values := tpRepvals cube zap })

/-- Row-major list of the `True` positions of a 2D mask, as produced by
`zip(*np.where(mask))`. -/
def maskTruePairs {ns nb : ℕ} (mask : Fin ns → Fin nb → Bool) : List (Fin ns × Fin nb) :=
  ((List.finRange ns).map
    (fun i => ((List.finRange nb).filter (fun j => mask i j)).map (fun j => (i, j)))).flatten

/-- `SpikeSubtractionPlan.apply`: copy the cube, then for every flagged
`(subint, phase)` pair overwrite the valid channels with the replacement
values.  The Python method mutates a fresh copy and leaves its input
untouched; the model returns the new cube. -/
def applyPlan {ns nc nb : ℕ} (plan : SpikeSubtractionPlan ns nc nb) (cube : Cube ns nc nb) :
    Cube ns nc nb :=
  (maskTruePairs plan.mask).foldl
    (fun acc ij => fun i c j =>
      if i = ij.1 ∧ j = ij.2 ∧ c ∈ plan.valid_channels then plan.replacement_values i c j
      else acc i c j)
    cube

/-! ## DataCube construction (`clfd.core.DataCube`) -/

/-- A raw numpy array of arbitrary rank: an explicit shape plus the flat
(row-major) element buffer. -/
structure NDInput where
  shape : List ℕ
  flat : List ℚ

/-- Row-major access into a rank-3 array with trailing dimensions
`s1, s2`: element `(i, c, j)` sits at flat offset `(i * s1 + c) * s2 + j`. -/
def ndGet3 (x : NDInput) (s1 s2 : ℕ) (i c j : ℕ) : ℚ :=
  x.flat.getD ((i * s1 + c) * s2 + j) 0

/-- The constructed `DataCube`: stored (baseline-subtracted) data plus the
per-profile baselines. -/
structure DataCubeModel where
  numSubints : ℕ
  numChans : ℕ
  numBins : ℕ
  data : Fin numSubints → Fin numChans → Fin numBins → ℚ
  baselines : Fin numSubints → Fin numChans → ℚ

/-- `DataCube.__init__` followed by `_subtract_baseline`: reject non-3D
input, fewer than 2 profiles (`shape[0] * shape[1] < 2`) or fewer than 2
phase bins (`shape[2] < 2`); otherwise store the data with each profile's
median subtracted, remembering the medians as `baselines`.  The Python
`type(data) == np.ndarray` check is outside this model's frame (the input
type already guarantees an array). -/
def makeDataCube (x : NDInput) : Except ClfdError DataCubeModel :=
  match x.shape with
  | [s0, s1, s2] =>
    if s0 * s1 < 2 then .error .shapeError
    else if s2 < 2 then .error .shapeError
    else
      let orig : Fin s0 → Fin s1 → Fin s2 → ℚ := fun i c j => ndGet3 x s1 s2 i c j
      let baselines : Fin s0 → Fin s1 → ℚ := fun i c => npMedian (List.ofFn (orig i c))
      .ok { numSubints := s0, numChans := s1, numBins := s2
            data := fun i c j => orig i c j - baselines i c
            baselines := baselines }
  | _ => .error .shapeError

/-! ## Concrete feature functions (`clfd.features.functions`)

`acf`, `skew` and `kurtosis` are modelled to the extent the claims depend on
them: the degenerate (zero-variance) conventions are explicit.  `np.inf` is
represented by the extended value type `NpVal`. -/

/-- An IEEE value that is either finite or `+inf` (the only non-finite value
these functions produce). -/
inductive NpVal where
  | val : ℚ → NpVal
  | inf : NpVal
deriving DecidableEq, Repr

/-- `np.mean(xs)`. -/
def npMean (xs : List ℚ) : ℚ := xs.sum / (xs.length : ℚ)

/-- `_moment(x, mean, order)`: `np.mean((x - mean) ** order)`. -/
def npMoment (xs : List ℚ) (mean : ℚ) (order : ℕ) : ℚ :=
  npMean (xs.map (fun x => (x - mean) ^ order))

/-- `np.var(xs)`: the biased variance `np.mean((x - mean) ** 2)`. -/
def npVar (xs : List ℚ) : ℚ := npMoment xs (npMean xs) 2

/-- `np.mean((X[:-1] - m) * (X[1:] - m))`: the lag-1 autocovariance. -/
def npAutocov (xs : List ℚ) : ℚ :=
  let m := npMean xs
  npMean ((xs.zip xs.tail).map (fun ab => (ab.1 - m) * (ab.2 - m)))

/-- Division of a finite float by a possibly infinite one:
`a / inf = 0` in IEEE arithmetic. -/
def divByNpVal (a : ℚ) : NpVal → ℚ
  | .inf => 0
  | .val w => a / w

/-- `acf`: the variance with `v[v == 0] = np.inf` applied, then
`acov / v`.  A zero variance therefore yields `acov / inf = 0`. -/
def acf (xs : List ℚ) : ℚ :=
  let v := npVar xs
  let vSubstituted : NpVal := if v = 0 then .inf else .val v
  divByNpVal (npAutocov xs) vSubstituted

/-- `skew`: `np.where(m2 == 0, 0.0, m3 / m2 ** 1.5)`.  The non-degenerate
branch value `m3 / m2 ** 1.5` is irrational-valued over ℚ (fractional
power) and is supplied as the parameter `ndBranch`; no claim depends on it. -/
def skew (ndBranch : List ℚ → ℚ) (xs : List ℚ) : ℚ :=
  let m1 := npMean xs
  let m2 := npMoment xs m1 2
  if m2 = 0 then 0 else ndBranch xs

/-- `kurtosis`: `np.where(m2 == 0, np.inf, m4 / m2 ** 2 - 3)`. -/
def kurtosis (xs : List ℚ) : NpVal :=
  let m1 := npMean xs
  let m2 := npMoment xs m1 2
  let m4 := npMoment xs m1 4
  if m2 = 0 then .inf else .val (m4 / m2 ^ 2 - 3)

/-! ## Serialization (`clfd.serialization`)

Result records are serialized to a JSON document; numpy arrays are encoded
as an object carrying the shape, the dtype string, and the raw data buffer
in base64.  The JSON text layer itself (`json.dumps` / `json.loads` of a
tree of dicts, lists, strings and numbers) is the Python standard library
and is modelled as the identity on JSON trees; the functions below are the
`Encoder` / `object_hook` tree transformations of `clfd.serialization`.
Array element buffers are byte lists (naturals below 256), which makes the
encoding element-type-agnostic exactly like `base64.b64encode(ndarray)`. -/

/-- A JSON tree. -/
inductive JVal where
  | null : JVal
  | bool : Bool → JVal
  | num : ℚ → JVal
  | str : String → JVal
  | arr : List JVal → JVal
  | obj : List (String × JVal) → JVal
deriving BEq

/-- A numpy array as touched by `serialize_ndarray`: its shape, its dtype
string, and its flat byte buffer. -/
structure NDArrayRep where
  shape : List ℕ
  dtype : String
  buffer : List ℕ
deriving DecidableEq, Repr

/-- Well-formedness of a byte buffer: every entry is a byte. -/
def bytesWF (bs : List ℕ) : Prop := ∀ b ∈ bs, b < 256

/-- The standard base64 alphabet. -/
def b64Alphabet : List Char :=
  "ABCDEFGHIJKLMNOPQRSTUVWXYZabcdefghijklmnopqrstuvwxyz0123456789+/".toList

/-- The alphabet character of a sextet value. -/
def sextetChar (k : ℕ) : Char := b64Alphabet.getD k '?'

/-- The sextet value of an alphabet character. -/
def sextetValue (c : Char) : ℕ := b64Alphabet.indexOf c

/-- `base64.b64encode`: bytes are consumed in groups of three and emitted as
four alphabet characters; a trailing group of two or one bytes is padded
with `=` or `==`. -/
def b64Encode : List ℕ → List Char
  | a :: b :: c :: rest =>
    let n := (a * 256 + b) * 256 + c
    sextetChar (n / 262144) :: sextetChar (n / 4096 % 64) ::
      sextetChar (n / 64 % 64) :: sextetChar (n % 64) :: b64Encode rest
  | [a, b] =>
    let n := (a * 256 + b) * 256
    [sextetChar (n / 262144), sextetChar (n / 4096 % 64), sextetChar (n / 64 % 64), '=']
  | [a] =>
    let n := a * 256 * 256
    [sextetChar (n / 262144), sextetChar (n / 4096 % 64), '=', '=']
  | [] => []

/-- `base64.b64decode`: four characters yield three bytes, with `=` padding
signalling a final group of one or two bytes. -/
def b64Decode : List Char → List ℕ
  | c1 :: c2 :: c3 :: c4 :: rest =>
    if c3 = '=' then
      let m := sextetValue c1 * 262144 + sextetValue c2 * 4096
      [m / 65536]
    else if c4 = '=' then
      let m := sextetValue c1 * 262144 + sextetValue c2 * 4096 + sextetValue c3 * 64
      [m / 65536, m / 256 % 256]
    else
      let m := sextetValue c1 * 262144 + sextetValue c2 * 4096 +
        sextetValue c3 * 64 + sextetValue c4
      m / 65536 :: m / 256 % 256 :: m % 256 :: b64Decode rest
  | _ => []

/-- `serialize_ndarray`: an object with the type tag, the shape, the dtype,
and the base64-encoded data buffer. -/
def serializeNdarray (a : NDArrayRep) : JVal :=
  .obj [("__type__", .str "ndarray"),
        ("shape", .arr (a.shape.map (fun n : ℕ => .num (n : ℚ)))),
        ("dtype", .str a.dtype),
        ("base64_data", .str (String.mk (b64Encode a.buffer)))]

/-- Sequence a list of optional values (`none` propagates). -/
def optionAll {α : Type} : List (Option α) → Option (List α)
  | [] => some []
  | none :: _ => none
  | some a :: rest =>
    match optionAll rest with
    | none => none
    | some tail => some (a :: tail)

/-- Read a JSON number back as a natural (shape entries). -/
def jNat : JVal → Option ℕ
  | .num v => if v.den = 1 ∧ 0 ≤ v.num then some v.num.toNat else none
  | _ => none

/-- Read a JSON number back as an integer (zap channel entries). -/
def jInt : JVal → Option ℤ
  | .num v => if v.den = 1 then some v.num else none
  | _ => none

/-- Read a JSON number back as a float (scalar fields). -/
def jRat : JVal → Option ℚ
  | .num v => some v
  | _ => none

/-- Read a JSON string. -/
def jStr : JVal → Option String
  | .str s => some s
  | _ => none

/-- Association lookup among the fields of a JSON object. -/
def jField (fields : List (String × JVal)) (key : String) : Option JVal :=
  List.lookup key fields

/-- `deserialize_ndarray`: `np.frombuffer(b64decode(base64_data), dtype)`
reshaped to the recorded shape — the byte buffer, dtype string and shape are
reconstructed verbatim. -/
def deserializeNdarray (j : JVal) : Option NDArrayRep :=
  match j with
  | .obj fields =>
    match jField fields "shape", jField fields "dtype", jField fields "base64_data" with
    | some (.arr shapeVals), some (.str dtype), some (.str data) =>
      match optionAll (shapeVals.map jNat) with
      | some shape => some { shape := shape, dtype := dtype, buffer := b64Decode data.toList }
      | none => none
    | _, _, _ => none
  | _ => none

/-- `Stats` serialized by `JSONSerializableDataclass`: its fields in
declaration order, plus the type tag added by `type_key_adder`. -/
def serializeStats (s : Stats) : JVal :=
  .obj [("q1", .num s.q1), ("med", .num s.med), ("q3", .num s.q3),
        ("__type__", .str "Stats")]

/-- `Stats._from_dict`: `cls(**mapping)` reads the three fields by name. -/
def deserializeStats (j : JVal) : Option Stats :=
  match j with
  | .obj fields =>
    match jField fields "q1", jField fields "med", jField fields "q3" with
    | some (.num q1), some (.num med), some (.num q3) =>
      some { q1 := q1, med := med, q3 := q3 }
    | _, _, _ => none
  | _ => none

/-- `ProfileMaskingResult` at the serialization boundary: the embedded numpy
arrays appear as shape/dtype/bytes triples (their numeric content is
irrelevant to the encoder, which works on the raw buffer). -/
structure SerializedProfileMaskingResult where
  q : ℚ
  zap_channels : List ℤ
  feature_values : List (String × NDArrayRep)
  feature_stats : List (String × Stats)
  mask : NDArrayRep
deriving DecidableEq, Repr

/-- `SpikeFindingResult` at the serialization boundary. -/
structure SerializedSpikeFindingResult where
  q : ℚ
  zap_channels : List ℤ
  mask : NDArrayRep
deriving DecidableEq, Repr

/-- The `json.JSONEncoder` tree for a `ProfileMaskingResult`: dataclass
fields in declaration order, nested arrays and `Stats` serialized by their
registered serializers, and the type tag appended. -/
def serializePMResult (r : SerializedProfileMaskingResult) : JVal :=
  .obj [("q", .num r.q),
        ("zap_channels", .arr (r.zap_channels.map (fun z : ℤ => .num (z : ℚ)))),
        ("feature_values", .obj (r.feature_values.map (fun nv => (nv.1, serializeNdarray nv.2)))),
        ("feature_stats", .obj (r.feature_stats.map (fun nv => (nv.1, serializeStats nv.2)))),
        ("mask", serializeNdarray r.mask),
        ("__type__", .str "ProfileMaskingResult")]

/-- The `object_hook` reconstruction of a `ProfileMaskingResult` (nested
objects are deserialized bottom-up by `json.loads`, then `cls(**mapping)`
reads the fields by name). -/
def deserializePMResult (j : JVal) : Option SerializedProfileMaskingResult :=
  match j with
  | .obj fields =>
    match jField fields "q", jField fields "zap_channels", jField fields "feature_values",
        jField fields "feature_stats", jField fields "mask" with
    | some (.num q), some (.arr zaps), some (.obj fvs), some (.obj fss), some maskVal =>
      match optionAll (zaps.map jInt),
          optionAll (fvs.map (fun kv => (deserializeNdarray kv.2).map (fun a => (kv.1, a)))),
          optionAll (fss.map (fun kv => (deserializeStats kv.2).map (fun s => (kv.1, s)))),
          deserializeNdarray maskVal with
      | some zap_channels, some feature_values, some feature_stats, some mask =>
        some { q := q, zap_channels := zap_channels, feature_values := feature_values,
               feature_stats := feature_stats, mask := mask }
      | _, _, _, _ => none
    | _, _, _, _, _ => none
  | _ => none

/-- The `json.JSONEncoder` tree for a `SpikeFindingResult`. -/
def serializeSFResult (r : SerializedSpikeFindingResult) : JVal :=
  .obj [("q", .num r.q),
        ("zap_channels", .arr (r.zap_channels.map (fun z : ℤ => .num (z : ℚ)))),
        ("mask", serializeNdarray r.mask),
        ("__type__", .str "SpikeFindingResult")]

/-- The `object_hook` reconstruction of a `SpikeFindingResult`. -/
def deserializeSFResult (j : JVal) : Option SerializedSpikeFindingResult :=
  match j with
  | .obj fields =>
    match jField fields "q", jField fields "zap_channels", jField fields "mask" with
    | some (.num q), some (.arr zaps), some maskVal =>
      match optionAll (zaps.map jInt), deserializeNdarray maskVal with
      | some zap_channels, some mask =>
        some { q := q, zap_channels := zap_channels, mask := mask }
      | _, _ => none
    | _, _, _ => none
  | _ => none

/-- Well-formedness of a serialized profile-masking record: all embedded
array buffers contain bytes. -/
def pmRecordWF (r : SerializedProfileMaskingResult) : Prop :=
  bytesWF r.mask.buffer ∧ ∀ nv ∈ r.feature_values, bytesWF nv.2.buffer

/-! ## Concrete inputs used by witnesses and counterexamples -/

/-- Extract the payload of an `Except`, with an explicit fallback. -/
def exceptOkOr {ε α : Type} (d : α) : Except ε α → α
  | .ok a => a
  | .error _ => d

/-- An all-zero cube of the given dimensions. -/
def zeroCube (ns nc nb : ℕ) : Cube ns nc nb := fun _ _ _ => 0

/-- A trivial feature (used where only registry names matter). -/
def constFeature : FeatureFn := fun _ => 0

/-- A one-feature registry (used where only the pipeline structure matters). -/
def tinyRegistry : FeatureRegistry := [("f", constFeature)]

/-- A registry carrying exactly the names registered by `clfd.features`. -/
def namesOnlyRegistry : FeatureRegistry :=
  availableFeatureNames.map (fun n => (n, constFeature))

/-- Fallback values for extracting spike-finding outputs. -/
def defaultSpikePair (ns nc nb : ℕ) :
    SpikeFindingResult ns nb × SpikeSubtractionPlan ns nc nb :=
  ({ q := 0, zap_channels := [], mask := fun _ _ => false },
   { valid_channels := [], mask := fun _ _ => false, replacement_values := fun _ _ _ => 0 })

/-- Fallback value for extracting profile-masking outputs. -/
def defaultPMResult (ns nc : ℕ) : ProfileMaskingResult ns nc :=
  { q := 0, zap_channels := [], feature_values := [], feature_stats := [],
    mask := fun _ _ => false }

/-- Build a small concrete cube from a nested list of values. -/
def cubeOfLists {ns nc nb : ℕ} (rows : List (List (List ℚ))) : Cube ns nc nb :=
  fun i c j => ((rows.getD (i : ℕ) []).getD (c : ℕ) []).getD (j : ℕ) 0

/-- The 5-subint, 1-channel, 3-bin cube refuting the no-reflag claim at the
default `q = 4`.  Column 1 of its time-phase plane is
`[-1, 0, -2, -1, -1]`, whose interquartile range is zero, so its Tukey
window is the single point `-1`: cells `(1, 1)` (value `0`) and `(2, 1)`
(value `-2`) are flagged.  Patching changes the phase-median of profile
`(1, 0)` from `0` to `-1`, which shifts that profile's baseline, and the
re-run flags cell `(1, 1)` once more. -/
def cexSpikeCube : Cube 5 1 3 :=
  cubeOfLists [[[1, -2, -1]], [[-1, 0, 1]], [[1, -2, 0]], [[1, -1, 0]], [[-1, -2, 1]]]

/-- First spike-finding run on `cexSpikeCube`. -/
def cexRun1 : Except ClfdError (SpikeFindingResult 5 3 × SpikeSubtractionPlan 5 1 3) :=
  findTimePhaseSpikes cexSpikeCube 4 []

/-- Result of the first run. -/
def cexRes1 : SpikeFindingResult 5 3 := (exceptOkOr (defaultSpikePair 5 1 3) cexRun1).1

/-- Plan of the first run. -/
def cexPlan1 : SpikeSubtractionPlan 5 1 3 := (exceptOkOr (defaultSpikePair 5 1 3) cexRun1).2

/-- The patched cube. -/
def cexPatched : Cube 5 1 3 := applyPlan cexPlan1 cexSpikeCube

/-- Second spike-finding run, on the patched cube, same parameters. -/
def cexRun2 : Except ClfdError (SpikeFindingResult 5 3 × SpikeSubtractionPlan 5 1 3) :=
  findTimePhaseSpikes cexPatched 4 []

/-- Result of the second run. -/
def cexRes2 : SpikeFindingResult 5 3 := (exceptOkOr (defaultSpikePair 5 1 3) cexRun2).1

/-- Plan of the second run. -/
def cexPlan2 : SpikeSubtractionPlan 5 1 3 := (exceptOkOr (defaultSpikePair 5 1 3) cexRun2).2

/-- A 4-subint, 1-channel, 3-bin cube on which spike finding at `q = 1`
flags some cells while patching preserves every profile's phase median. -/
def witSpikeCube : Cube 4 1 3 :=
  cubeOfLists [[[1, 0, 0]], [[0, -1, 2]], [[0, -2, -2]], [[-1, 1, 1]]]

/-- First spike-finding run on `witSpikeCube`. -/
def witRun1 : Except ClfdError (SpikeFindingResult 4 3 × SpikeSubtractionPlan 4 1 3) :=
  findTimePhaseSpikes witSpikeCube 1 []

/-- Result of the first run on `witSpikeCube`. -/
def witRes1 : SpikeFindingResult 4 3 := (exceptOkOr (defaultSpikePair 4 1 3) witRun1).1

/-- Plan of the first run on `witSpikeCube`. -/
def witPlan1 : SpikeSubtractionPlan 4 1 3 := (exceptOkOr (defaultSpikePair 4 1 3) witRun1).2

/-- The patched witness cube. -/
def witPatched : Cube 4 1 3 := applyPlan witPlan1 witSpikeCube

/-- Second spike-finding run on the patched witness cube. -/
def witRun2 : Except ClfdError (SpikeFindingResult 4 3 × SpikeSubtractionPlan 4 1 3) :=
  findTimePhaseSpikes witPatched 1 []

/-- Result of the second run on `witSpikeCube`. -/
def witRes2 : SpikeFindingResult 4 3 := (exceptOkOr (defaultSpikePair 4 1 3) witRun2).1

/-- Plan of the second run on `witSpikeCube`. -/
def witPlan2 : SpikeSubtractionPlan 4 1 3 := (exceptOkOr (defaultSpikePair 4 1 3) witRun2).2

/-- Profile-masking run with a duplicated in-range zap index `[0, 0]` on a
3-channel cube: the run succeeds and its `zap_channels` field retains the
duplicate. -/
def dupZapRun : Except ClfdError (ProfileMaskingResult 1 3) :=
  profileMask tinyRegistry (zeroCube 1 3 2) ["f"] 2 [0, 0]

/-- Result of `dupZapRun`. -/
def dupZapRes : ProfileMaskingResult 1 3 := exceptOkOr (defaultPMResult 1 3) dupZapRun

/-- Spike-finding run with the unordered zap list `[1, 0]` on a 3-channel
cube: the run succeeds and its `zap_channels` field keeps the request
order. -/
def unsortedZapRun : Except ClfdError (SpikeFindingResult 1 2 × SpikeSubtractionPlan 1 3 2) :=
  findTimePhaseSpikes (zeroCube 1 3 2) 2 [1, 0]

/-- Result of `unsortedZapRun`. -/
def unsortedZapRes : SpikeFindingResult 1 2 :=
  (exceptOkOr (defaultSpikePair 1 3 2) unsortedZapRun).1

/-- Plan of `unsortedZapRun`. -/
def unsortedZapPlan : SpikeSubtractionPlan 1 3 2 :=
  (exceptOkOr (defaultSpikePair 1 3 2) unsortedZapRun).2

/-- A concrete 2-subint, 2-channel, 2-bin cube for the time-phase witness. -/
def witTPCube : Cube 2 2 2 := cubeOfLists [[[1, 5], [2, 2]], [[0, 1], [7, 3]]]

/-- A concrete rank-3 numpy input of shape `(1, 2, 2)`. -/
def witNDInput : NDInput := { shape := [1, 2, 2], flat := [1, 2, 3, 4] }

/-- A tiny array representative for serialization witnesses. -/
def witNDArr : NDArrayRep := { shape := [2, 2], dtype := "float64", buffer := [0, 1, 127, 128, 254, 255] }

/-- A concrete serialized profile-masking record. -/
def witPMRecord : SerializedProfileMaskingResult :=
  { q := 2, zap_channels := [-1, 3], feature_values := [("std", witNDArr)],
    feature_stats := [("std", { q1 := 1/2, med := 1, q3 := 3/2 })], mask := witNDArr }

/-- A concrete serialized spike-finding record. -/
def witSFRecord : SerializedSpikeFindingResult :=
  { q := 4, zap_channels := [7], mask := witNDArr }

/-! ## Spec-side formulations

The following definitions spell out, in the spec's own words, the quantities
that claims C1 and C2 assert the code computes; the claim theorems compare
them with the source-translated pipeline.  `npPercentile` is invariant under
permutation of its input (`npPercentile_congr_perm` below), so phrasing the
populations as sums/filters over index sets loses no generality. -/

/-- Spec C2: the set of non-zapped channels. -/
def specKeepSet (zap : List ℤ) (nc : ℕ) : Finset (Fin nc) :=
  Finset.univ.filter (fun c => ((c : ℕ) : ℤ) ∉ inBoundsZap zap nc)

/-- Spec C2: the baseline-subtracted cube summed over the non-zapped
channels (baselines being the phase-medians of the raw cube). -/
def specSubints {ns nc nb : ℕ} (cube : Cube ns nc nb) (zap : List ℤ)
    (i : Fin ns) (j : Fin nb) : ℚ :=
  ∑ c ∈ specKeepSet zap nc, (cube i c j - npMedian (profileOf cube i c))

/-- Spec C2: per-phase-bin quartiles of the summed plane along the subint
axis. -/
def specColStats {ns nc nb : ℕ} (cube : Cube ns nc nb) (zap : List ℤ)
    (j : Fin nb) : Stats :=
  makeStats (List.ofFn (fun i => specSubints cube zap i j))

/-- Spec C1: the Tukey outlier condition for one feature at one cell, with
quartiles taken over the non-zapped channel population only.  (`popList` is
the row-major enumeration of that population; `npPercentile` is invariant
under reordering, see `npPercentile_congr_perm`.) -/
def specFeatureOutlier {ns nc nb : ℕ} (cube : Cube ns nc nb) (zap : List ℤ) (q : ℚ)
    (f : FeatureFn) (i : Fin ns) (c : Fin nc) : Prop :=
  f (profileOf cube i c) <
      npPercentile (popList (fun i' c' => f (profileOf cube i' c')) (pmKeep zap nc)) 25 -
        q * (npPercentile (popList (fun i' c' => f (profileOf cube i' c')) (pmKeep zap nc)) 75 -
          npPercentile (popList (fun i' c' => f (profileOf cube i' c')) (pmKeep zap nc)) 25) ∨
    npPercentile (popList (fun i' c' => f (profileOf cube i' c')) (pmKeep zap nc)) 75 +
        q * (npPercentile (popList (fun i' c' => f (profileOf cube i' c')) (pmKeep zap nc)) 75 -
          npPercentile (popList (fun i' c' => f (profileOf cube i' c')) (pmKeep zap nc)) 25) <
      f (profileOf cube i c)

/-! ## Order-statistics toolbox -/

lemma npSorted_sorted (xs : List ℚ) : List.Sorted (· ≤ ·) (npSorted xs) :=
  List.sorted_insertionSort (· ≤ ·) xs

lemma npSorted_perm (xs : List ℚ) : (npSorted xs).Perm xs :=
  List.perm_insertionSort (· ≤ ·) xs

lemma npSorted_length (xs : List ℚ) : (npSorted xs).length = xs.length :=
  List.length_insertionSort (· ≤ ·) xs

lemma npSorted_eq_of_perm {xs ys : List ℚ} (h : xs.Perm ys) : npSorted xs = npSorted ys :=
  List.eq_of_perm_of_sorted (((npSorted_perm xs).trans h).trans (npSorted_perm ys).symm)
    (npSorted_sorted xs) (npSorted_sorted ys)

lemma npPercentile_congr_perm {xs ys : List ℚ} (h : xs.Perm ys) (p : ℕ) :
    npPercentile xs p = npPercentile ys p := by
  unfold npPercentile
  rw [npSorted_eq_of_perm h, h.length_eq]

lemma sorted_getD_mono {s : List ℚ} (hs : List.Sorted (· ≤ ·) s) {i j : ℕ}
    (hij : i ≤ j) (hj : j < s.length) : s.getD i 0 ≤ s.getD j 0 := by
  have hi : i < s.length := lt_of_le_of_lt hij hj
  rw [List.getD_eq_getElem s 0 hi, List.getD_eq_getElem s 0 hj]
  exact List.Sorted.rel_get_of_le hs (a := ⟨i, hi⟩) (b := ⟨j, hj⟩) hij

lemma countLE_of_getD_le {s : List ℚ} (hs : List.Sorted (· ≤ ·) s) {k : ℕ}
    (hk : k < s.length) {a : ℚ} (h : s.getD k 0 ≤ a) :
    k + 1 ≤ s.countP (fun b => decide (b ≤ a)) := by
  have hsplit := List.take_append_drop (k + 1) s
  have hcount : s.countP (fun b => decide (b ≤ a)) =
      (s.take (k + 1)).countP (fun b => decide (b ≤ a)) +
      (s.drop (k + 1)).countP (fun b => decide (b ≤ a)) := by
    conv_lhs => rw [← hsplit]
    exact List.countP_append _ _ _
  have htake : (s.take (k + 1)).countP (fun b => decide (b ≤ a)) = (s.take (k + 1)).length := by
    apply List.countP_eq_length.mpr
    intro b hb
    obtain ⟨i, hi, hbi⟩ := List.mem_iff_getElem.mp hb
    have hik : i ≤ k := by
      have := hi
      rw [List.length_take] at this
      omega
    have hilen : i < s.length := by
      have := hi
      rw [List.length_take] at this
      omega
    have : b = s.getD i 0 := by
      rw [List.getD_eq_getElem s 0 hilen, ← hbi, List.getElem_take]
    rw [this]
    simpa using le_trans (sorted_getD_mono hs hik hk) h
  have hlen : (s.take (k + 1)).length = k + 1 := by
    rw [List.length_take]; omega
  omega

lemma getD_le_of_countLE {s : List ℚ} (hs : List.Sorted (· ≤ ·) s) {k : ℕ}
    (hk : k < s.length) {a : ℚ} (h : k + 1 ≤ s.countP (fun b => decide (b ≤ a))) :
    s.getD k 0 ≤ a := by
  by_contra hcon
  push_neg at hcon
  have hsplit := List.take_append_drop k s
  have hcount : s.countP (fun b => decide (b ≤ a)) =
      (s.take k).countP (fun b => decide (b ≤ a)) +
      (s.drop k).countP (fun b => decide (b ≤ a)) := by
    conv_lhs => rw [← hsplit]
    exact List.countP_append _ _ _
  have hdrop : (s.drop k).countP (fun b => decide (b ≤ a)) = 0 := by
    apply List.countP_eq_zero.mpr
    intro b hb
    obtain ⟨i, hi, hbi⟩ := List.mem_iff_getElem.mp hb
    have hilen : k + i < s.length := by
      have := hi
      rw [List.length_drop] at this
      omega
    have hb' : b = s.getD (k + i) 0 := by
      rw [List.getD_eq_getElem s 0 hilen, ← hbi, List.getElem_drop]
    have : s.getD k 0 ≤ s.getD (k + i) 0 := sorted_getD_mono hs (Nat.le_add_right k i) hilen
    simp only [decide_eq_true_eq]
    rw [hb']
    linarith
  have htake : (s.take k).countP (fun b => decide (b ≤ a)) ≤ k := by
    calc (s.take k).countP (fun b => decide (b ≤ a)) ≤ (s.take k).length :=
        List.countP_le_length _
    _ ≤ k := by rw [List.length_take]; omega
  omega

lemma countGE_of_le_getD {s : List ℚ} (hs : List.Sorted (· ≤ ·) s) {k : ℕ}
    (hk : k < s.length) {a : ℚ} (h : a ≤ s.getD k 0) :
    s.length - k ≤ s.countP (fun b => decide (a ≤ b)) := by
  have hsplit := List.take_append_drop k s
  have hcount : s.countP (fun b => decide (a ≤ b)) =
      (s.take k).countP (fun b => decide (a ≤ b)) +
      (s.drop k).countP (fun b => decide (a ≤ b)) := by
    conv_lhs => rw [← hsplit]
    exact List.countP_append _ _ _
  have hdrop : (s.drop k).countP (fun b => decide (a ≤ b)) = (s.drop k).length := by
    apply List.countP_eq_length.mpr
    intro b hb
    obtain ⟨i, hi, hbi⟩ := List.mem_iff_getElem.mp hb
    have hilen : k + i < s.length := by
      have := hi
      rw [List.length_drop] at this
      omega
    have hb' : b = s.getD (k + i) 0 := by
      rw [List.getD_eq_getElem s 0 hilen, ← hbi, List.getElem_drop]
    have : s.getD k 0 ≤ s.getD (k + i) 0 := sorted_getD_mono hs (Nat.le_add_right k i) hilen
    simp only [decide_eq_true_eq]
    rw [hb']
    linarith
  have hlen : (s.drop k).length = s.length - k := List.length_drop k s
  omega

lemma le_getD_of_countGE {s : List ℚ} (hs : List.Sorted (· ≤ ·) s) {k : ℕ}
    (hk : k < s.length) {a : ℚ} (h : s.length - k ≤ s.countP (fun b => decide (a ≤ b))) :
    a ≤ s.getD k 0 := by
  by_contra hcon
  push_neg at hcon
  have hsplit := List.take_append_drop (k + 1) s
  have hcount : s.countP (fun b => decide (a ≤ b)) =
      (s.take (k + 1)).countP (fun b => decide (a ≤ b)) +
      (s.drop (k + 1)).countP (fun b => decide (a ≤ b)) := by
    conv_lhs => rw [← hsplit]
    exact List.countP_append _ _ _
  have htake : (s.take (k + 1)).countP (fun b => decide (a ≤ b)) = 0 := by
    apply List.countP_eq_zero.mpr
    intro b hb
    obtain ⟨i, hi, hbi⟩ := List.mem_iff_getElem.mp hb
    have hik : i ≤ k := by
      have := hi
      rw [List.length_take] at this
      omega
    have hilen : i < s.length := by
      have := hi
      rw [List.length_take] at this
      omega
    have hb' : b = s.getD i 0 := by
      rw [List.getD_eq_getElem s 0 hilen, ← hbi, List.getElem_take]
    have : s.getD i 0 ≤ s.getD k 0 := sorted_getD_mono hs hik hk
    simp only [decide_eq_true_eq]
    rw [hb']
    linarith
  have hdrop : (s.drop (k + 1)).countP (fun b => decide (a ≤ b)) ≤ s.length - (k + 1) := by
    calc (s.drop (k + 1)).countP (fun b => decide (a ≤ b)) ≤ (s.drop (k + 1)).length :=
        List.countP_le_length _
    _ = s.length - (k + 1) := List.length_drop _ s
  omega

lemma interp_eq_of_exact {s : List ℚ} {num : ℕ} (h : num % 100 = 0) :
    interpAt s num = s.getD (num / 100) 0 := by
  unfold interpAt
  rw [h]
  simp

lemma interp_lower {s : List ℚ} (hs : List.Sorted (· ≤ ·) s) {num : ℕ}
    (h1 : 1 ≤ s.length) (hnum : num ≤ 100 * (s.length - 1)) :
    s.getD (num / 100) 0 ≤ interpAt s num := by
  by_cases h : num % 100 = 0
  · rw [interp_eq_of_exact h]
  · have hlt : num / 100 + 1 < s.length := by omega
    have hmono : s.getD (num / 100) 0 ≤ s.getD (num / 100 + 1) 0 :=
      sorted_getD_mono hs (Nat.le_succ _) hlt
    have hfrac : (0 : ℚ) ≤ ((num % 100 : ℕ) : ℚ) / 100 := by positivity
    unfold interpAt
    nlinarith

lemma interp_le_next {s : List ℚ} (hs : List.Sorted (· ≤ ·) s) {num : ℕ}
    (h1 : 1 ≤ s.length) (h : num % 100 ≠ 0) (hnum : num ≤ 100 * (s.length - 1)) :
    interpAt s num ≤ s.getD (num / 100 + 1) 0 := by
  have hlt : num / 100 + 1 < s.length := by omega
  have hmono : s.getD (num / 100) 0 ≤ s.getD (num / 100 + 1) 0 :=
    sorted_getD_mono hs (Nat.le_succ _) hlt
  have hfrac0 : (0 : ℚ) ≤ ((num % 100 : ℕ) : ℚ) / 100 := by positivity
  have hfrac1 : ((num % 100 : ℕ) : ℚ) / 100 ≤ 1 := by
    have : (num % 100 : ℕ) < 100 := Nat.mod_lt _ (by norm_num)
    have : ((num % 100 : ℕ) : ℚ) ≤ 100 := by exact_mod_cast le_of_lt this
    linarith
  unfold interpAt
  nlinarith

lemma percentile_le_of_count {ys : List ℚ} {a : ℚ} {p : ℕ} (hp : p ≤ 100) (hne : ys ≠ [])
    (hcount : p * (ys.length - 1) / 100 + (if p * (ys.length - 1) % 100 = 0 then 0 else 1) + 1 ≤
      ys.countP (fun b => decide (b ≤ a))) :
    npPercentile ys p ≤ a := by
  have hn : 1 ≤ ys.length := List.length_pos.mpr hne
  set num := p * (ys.length - 1) with hnumdef
  have hnum : num ≤ 100 * (ys.length - 1) := Nat.mul_le_mul_right _ hp
  have hslen : (npSorted ys).length = ys.length := npSorted_length ys
  have hscount : (npSorted ys).countP (fun b => decide (b ≤ a)) =
      ys.countP (fun b => decide (b ≤ a)) := (npSorted_perm ys).countP_eq _
  have hs := npSorted_sorted ys
  show interpAt (npSorted ys) num ≤ a
  by_cases hexact : num % 100 = 0
  · rw [interp_eq_of_exact hexact]
    apply getD_le_of_countLE hs (k := num / 100)
    · omega
    · rw [hscount]
      simp only [hexact, if_pos] at hcount
      omega
  · have h1 : interpAt (npSorted ys) num ≤ (npSorted ys).getD (num / 100 + 1) 0 :=
      interp_le_next hs (by omega) hexact (by omega)
    have h2 : (npSorted ys).getD (num / 100 + 1) 0 ≤ a := by
      apply getD_le_of_countLE hs (k := num / 100 + 1)
      · omega
      · rw [hscount]
        rw [if_neg hexact] at hcount
        omega
    linarith

lemma le_percentile_of_count {ys : List ℚ} {a : ℚ} {p : ℕ} (hp : p ≤ 100) (hne : ys ≠ [])
    (hcount : ys.length - p * (ys.length - 1) / 100 ≤ ys.countP (fun b => decide (a ≤ b))) :
    a ≤ npPercentile ys p := by
  have hn : 1 ≤ ys.length := List.length_pos.mpr hne
  set num := p * (ys.length - 1) with hnumdef
  have hnum : num ≤ 100 * (ys.length - 1) := Nat.mul_le_mul_right _ hp
  have hslen : (npSorted ys).length = ys.length := npSorted_length ys
  have hscount : (npSorted ys).countP (fun b => decide (a ≤ b)) =
      ys.countP (fun b => decide (a ≤ b)) := (npSorted_perm ys).countP_eq _
  have hs := npSorted_sorted ys
  have h1 : (npSorted ys).getD (num / 100) 0 ≤ interpAt (npSorted ys) num :=
    interp_lower hs (by omega) (by omega)
  have h2 : a ≤ (npSorted ys).getD (num / 100) 0 := by
    apply le_getD_of_countGE hs (k := num / 100)
    · omega
    · rw [hscount]
      omega
  exact le_trans h2 h1

lemma med_countLE {xs : List ℚ} (hne : xs ≠ []) :
    (xs.length - 1) / 2 + 1 ≤ xs.countP (fun b => decide (b ≤ npPercentile xs 50)) := by
  have hn : 1 ≤ xs.length := List.length_pos.mpr hne
  set m := xs.length - 1 with hm
  have hslen : (npSorted xs).length = xs.length := npSorted_length xs
  have hscount : (npSorted xs).countP (fun b => decide (b ≤ npPercentile xs 50)) =
      xs.countP (fun b => decide (b ≤ npPercentile xs 50)) := (npSorted_perm xs).countP_eq _
  have hs := npSorted_sorted xs
  have hdiv : 50 * m / 100 = m / 2 := by omega
  have hlow : (npSorted xs).getD (50 * m / 100) 0 ≤ npPercentile xs 50 :=
    interp_lower hs (by omega) (by omega)
  have := countLE_of_getD_le hs (k := 50 * m / 100) (by omega) hlow
  rw [hscount] at this
  omega

lemma med_countGE {xs : List ℚ} (hne : xs ≠ []) :
    xs.length - ((xs.length - 1) / 2 + (xs.length - 1) % 2) ≤
      xs.countP (fun b => decide (npPercentile xs 50 ≤ b)) := by
  have hn : 1 ≤ xs.length := List.length_pos.mpr hne
  set m := xs.length - 1 with hm
  have hslen : (npSorted xs).length = xs.length := npSorted_length xs
  have hscount : (npSorted xs).countP (fun b => decide (npPercentile xs 50 ≤ b)) =
      xs.countP (fun b => decide (npPercentile xs 50 ≤ b)) := (npSorted_perm xs).countP_eq _
  have hs := npSorted_sorted xs
  by_cases hpar : m % 2 = 0
  · have hexact : 50 * m % 100 = 0 := by omega
    have hmed : npPercentile xs 50 = (npSorted xs).getD (50 * m / 100) 0 :=
      interp_eq_of_exact hexact
    have := countGE_of_le_getD hs (k := 50 * m / 100) (by omega) (le_of_eq hmed)
    rw [hscount] at this
    omega
  · have hne50 : 50 * m % 100 ≠ 0 := by omega
    have hmed : npPercentile xs 50 ≤ (npSorted xs).getD (50 * m / 100 + 1) 0 :=
      interp_le_next hs (by omega) hne50 (by omega)
    have := countGE_of_le_getD hs (k := 50 * m / 100 + 1) (by omega) hmed
    rw [hscount] at this
    omega

lemma npPercentile_singleton (a : ℚ) (p : ℕ) : npPercentile [a] p = a := by
  unfold npPercentile npSorted interpAt
  simp [List.insertionSort]

lemma flagVal_iff {st : Stats} {q a : ℚ} :
    flagVal st q a = true ↔ a < st.vmin q ∨ st.vmax q < a := by
  simp [flagVal]

lemma flag_all_of_two {xs : List ℚ} {q : ℚ} (hq : 0 ≤ q) (hlen : xs.length = 2)
    (hex : ∃ a ∈ xs, flagVal (makeStats xs) q a = true) :
    ∀ b ∈ xs, flagVal (makeStats xs) q b = true := by
  have hslen : (npSorted xs).length = 2 := by rw [npSorted_length, hlen]
  obtain ⟨u, v, hs⟩ : ∃ u v, npSorted xs = [u, v] := by
    rcases hsx : npSorted xs with _ | ⟨u, _ | ⟨v, _ | ⟨w, t⟩⟩⟩ <;>
      simp [hsx] at hslen
    exact ⟨u, v, rfl⟩
  have huv : u ≤ v := by
    have h := npSorted_sorted xs
    rw [hs, List.sorted_cons] at h
    exact h.1 v (by simp)
  have hmem : ∀ a ∈ xs, a = u ∨ a = v := by
    intro a ha
    have : a ∈ npSorted xs := ((npSorted_perm xs).mem_iff).mpr ha
    rw [hs] at this
    simpa using this
  have hq1 : (makeStats xs).q1 = u + 25 / 100 * (v - u) := by
    show npPercentile xs 25 = _
    unfold npPercentile
    rw [hs, hlen]
    norm_num [interpAt]
  have hmed : (makeStats xs).med = u + 50 / 100 * (v - u) := by
    show npPercentile xs 50 = _
    unfold npPercentile
    rw [hs, hlen]
    norm_num [interpAt]
  have hq3 : (makeStats xs).q3 = u + 75 / 100 * (v - u) := by
    show npPercentile xs 75 = _
    unfold npPercentile
    rw [hs, hlen]
    norm_num [interpAt]
  have hvmin : (makeStats xs).vmin q = u + 25 / 100 * (v - u) - q * (1 / 2 * (v - u)) := by
    rw [Stats.vmin, Stats.iqr, hq1, hq3]
    ring
  have hvmax : (makeStats xs).vmax q = u + 75 / 100 * (v - u) + q * (1 / 2 * (v - u)) := by
    rw [Stats.vmax, Stats.iqr, hq1, hq3]
    ring
  have hd : 0 ≤ v - u := by linarith
  obtain ⟨a, ha, hflag⟩ := hex
  rw [flagVal_iff, hvmin, hvmax] at hflag
  have hkey : 0 < (v - u) / 4 - q * (v - u) / 2 := by
    rcases hmem a ha with rfl | rfl
    · rcases hflag with h | h
      · linarith
      · nlinarith [mul_nonneg hq hd]
    · rcases hflag with h | h
      · nlinarith [mul_nonneg hq hd]
      · linarith
  intro b hb
  rw [flagVal_iff, hvmin, hvmax]
  rcases hmem b hb with rfl | rfl
  · left; linarith
  · right; linarith

lemma tukey_patch_window (xs : List ℚ) (q : ℚ) (hq : 0 ≤ q) (hne : xs ≠ [])
    (hex : ∃ a ∈ xs, flagVal (makeStats xs) q a = true) :
    (makeStats (xs.map (fun a => if flagVal (makeStats xs) q a = true
        then (makeStats xs).med else a))).vmin q ≤ (makeStats xs).med ∧
    (makeStats xs).med ≤ (makeStats (xs.map (fun a => if flagVal (makeStats xs) q a = true
        then (makeStats xs).med else a))).vmax q := by
  set st := makeStats xs with hst
  set med := st.med with hmeddef
  have hmed50 : med = npPercentile xs 50 := rfl
  set f : ℚ → ℚ := fun a => if flagVal st q a = true then med else a with hf
  set ys := xs.map f with hys
  have hn : 1 ≤ xs.length := List.length_pos.mpr hne
  have hyslen : ys.length = xs.length := List.length_map xs f
  have hysne : ys ≠ [] := by
    intro h
    rw [h] at hyslen
    simp at hyslen
    omega
  -- count transfer from xs to ys, on both sides of the median
  have hLEx : (xs.length - 1) / 2 + 1 ≤ xs.countP (fun b => decide (b ≤ med)) := by
    rw [hmed50]
    exact med_countLE hne
  have hGEx : xs.length - ((xs.length - 1) / 2 + (xs.length - 1) % 2) ≤
      xs.countP (fun b => decide (med ≤ b)) := by
    rw [hmed50]
    exact med_countGE hne
  have hLEy : xs.countP (fun b => decide (b ≤ med)) ≤ ys.countP (fun b => decide (b ≤ med)) := by
    rw [hys, List.countP_map]
    apply List.countP_mono_left
    intro a _ ha
    simp only [Function.comp_apply, hf, decide_eq_true_eq] at *
    split
    · exact le_refl med
    · exact ha
  have hGEy : xs.countP (fun b => decide (med ≤ b)) ≤ ys.countP (fun b => decide (med ≤ b)) := by
    rw [hys, List.countP_map]
    apply List.countP_mono_left
    intro a _ ha
    simp only [Function.comp_apply, hf, decide_eq_true_eq] at *
    split
    · exact le_refl med
    · exact ha
  -- the central inequalities q1(ys) ≤ med ≤ q3(ys)
  have hmain : npPercentile ys 25 ≤ med ∧ med ≤ npPercentile ys 75 := by
    rcases Nat.lt_or_ge xs.length 2 with hsmall | hbig
    · -- a single element is never flagged: contradiction with hex
      exfalso
      have h1 : xs.length = 1 := by omega
      obtain ⟨a, rfl⟩ := List.length_eq_one.mp h1
      obtain ⟨b, hb, hflag⟩ := hex
      have hb' : b = a := by simpa using hb
      subst hb'
      have hsta : makeStats [b] = { q1 := b, med := b, q3 := b } := by
        simp [makeStats, npPercentile_singleton]
      rw [flagVal_iff] at hflag
      rw [hst, hsta] at hflag
      simp [Stats.vmin, Stats.vmax, Stats.iqr] at hflag
    rcases Nat.lt_or_ge xs.length 3 with htwo | hthree
    · -- two elements: if anything is flagged, everything is, and ys is constant
      have h2 : xs.length = 2 := by omega
      have hall := flag_all_of_two hq h2 hex
      have hconst : ∀ b ∈ ys, b = med := by
        intro b hb
        rw [hys] at hb
        obtain ⟨a, ha, rfl⟩ := List.mem_map.mp hb
        rw [hf]
        simp [hall a ha]
      have hcntLE : ys.countP (fun b => decide (b ≤ med)) = ys.length :=
        List.countP_eq_length.mpr (fun b hb => by simp [hconst b hb])
      have hcntGE : ys.countP (fun b => decide (med ≤ b)) = ys.length :=
        List.countP_eq_length.mpr (fun b hb => by simp [hconst b hb])
      constructor
      · apply percentile_le_of_count (by norm_num) hysne
        rw [hcntLE, hyslen, h2]
        norm_num
      · apply le_percentile_of_count (by norm_num) hysne
        rw [hcntGE, hyslen, h2]
    · -- three or more elements: the median-count argument
      constructor
      · apply percentile_le_of_count (by norm_num) hysne
        rw [hyslen]
        by_cases hmod : 25 * (xs.length - 1) % 100 = 0
        · rw [if_pos hmod]
          omega
        · rw [if_neg hmod]
          omega
      · apply le_percentile_of_count (by norm_num) hysne
        rw [hyslen]
        omega
  -- widen to the full Tukey window
  have hq1 : (makeStats ys).q1 = npPercentile ys 25 := rfl
  have hq3 : (makeStats ys).q3 = npPercentile ys 75 := rfl
  have hiqr : 0 ≤ (makeStats ys).q3 - (makeStats ys).q1 := by
    rw [hq1, hq3]
    linarith [hmain.1, hmain.2]
  have hmul : 0 ≤ q * ((makeStats ys).q3 - (makeStats ys).q1) := mul_nonneg hq hiqr
  constructor
  · rw [Stats.vmin, Stats.iqr]
    have := hmain.1
    rw [← hq1] at this
    linarith
  · rw [Stats.vmax, Stats.iqr]
    have := hmain.2
    rw [← hq3] at this
    linarith

/-! ## The subtraction plan: pointwise characterization of `apply` -/

lemma mem_maskTruePairs {ns nb : ℕ} (mask : Fin ns → Fin nb → Bool) (i : Fin ns) (j : Fin nb) :
    (i, j) ∈ maskTruePairs mask ↔ mask i j = true := by
  unfold maskTruePairs
  simp only [List.mem_flatten, List.mem_map, List.mem_filter, List.mem_finRange, true_and]
  constructor
  · rintro ⟨l, ⟨i', rfl⟩, hl⟩
    obtain ⟨j', hj', hpair⟩ := List.mem_map.mp hl
    obtain ⟨hj'mem, hj'mask⟩ := List.mem_filter.mp hj'
    obtain ⟨rfl, rfl⟩ := Prod.mk.injEq .. ▸ hpair
    · exact hj'mask
  · intro h
    refine ⟨_, ⟨i, rfl⟩, ?_⟩
    exact List.mem_map.mpr ⟨j, List.mem_filter.mpr ⟨List.mem_finRange j, h⟩, rfl⟩

lemma applyPlan_foldl {ns nc nb : ℕ} (plan : SpikeSubtractionPlan ns nc nb)
    (ps : List (Fin ns × Fin nb)) (g : Cube ns nc nb) (i : Fin ns) (c : Fin nc) (j : Fin nb) :
    (ps.foldl
      (fun acc ij => fun i c j =>
        if i = ij.1 ∧ j = ij.2 ∧ c ∈ plan.valid_channels then plan.replacement_values i c j
        else acc i c j)
      g) i c j =
      if (i, j) ∈ ps ∧ c ∈ plan.valid_channels then plan.replacement_values i c j
      else g i c j := by
  induction ps generalizing g with
  | nil => simp
  | cons hd tl ih =>
    rw [List.foldl_cons, ih]
    by_cases hmem : (i, j) ∈ tl ∧ c ∈ plan.valid_channels
    · rw [if_pos hmem, if_pos ⟨List.mem_cons_of_mem hd hmem.1, hmem.2⟩]
    · rw [if_neg hmem]
      by_cases hhd : i = hd.1 ∧ j = hd.2 ∧ c ∈ plan.valid_channels
    
      · have : (i, j) ∈ hd :: tl ∧ c ∈ plan.valid_channels := by
          refine ⟨?_, hhd.2.2⟩
          have : (i, j) = hd := Prod.ext hhd.1 hhd.2.1
          rw [this]
          exact List.mem_cons_self hd tl
        rw [if_pos hhd, if_pos this]
      · rw [if_neg hhd]
        by_cases hcons : (i, j) ∈ hd :: tl ∧ c ∈ plan.valid_channels
        · exfalso
          rcases List.mem_cons.mp hcons.1 with heq | hmem'
          · exact hhd ⟨congrArg Prod.fst heq, congrArg Prod.snd heq, hcons.2⟩
          · exact hmem ⟨hmem', hcons.2⟩
        · rw [if_neg hcons]

lemma applyPlan_eq {ns nc nb : ℕ} (plan : SpikeSubtractionPlan ns nc nb) (cube : Cube ns nc nb)
    (i : Fin ns) (c : Fin nc) (j : Fin nb) :
    applyPlan plan cube i c j =
      if plan.mask i j = true ∧ c ∈ plan.valid_channels then plan.replacement_values i c j
      else cube i c j := by
  refine (applyPlan_foldl plan (maskTruePairs plan.mask) cube i c j).trans ?_
  by_cases h : plan.mask i j = true ∧ c ∈ plan.valid_channels
  · rw [if_pos h, if_pos ⟨(mem_maskTruePairs plan.mask i j).mpr h.1, h.2⟩]
  · rw [if_neg h]
    by_cases h2 : (i, j) ∈ maskTruePairs plan.mask ∧ c ∈ plan.valid_channels
    · exact absurd ⟨(mem_maskTruePairs plan.mask i j).mp h2.1, h2.2⟩ h
    · rw [if_neg h2]

lemma findTimePhaseSpikes_ok {ns nc nb : ℕ} (cube : Cube ns nc nb) (q : ℚ) (zap : List ℤ)
    (hlen : (inBoundsZap zap nc).length ≠ nc) :
    findTimePhaseSpikes cube q zap =
      .ok ({ q := q, zap_channels := inBoundsZap zap nc, mask := tpMask cube q zap },
           { valid_channels := tpValidChannels nc zap, mask := tpMask cube q zap,
             replacement_values := tpRepvals cube zap }) := by
  unfold findTimePhaseSpikes
  rw [if_neg hlen]

lemma tpValidChannels_pos {nc : ℕ} (zap : List ℤ)
    (hkeep : ∃ c : Fin nc, ((c : ℕ) : ℤ) ∉ inBoundsZap zap nc) :
    0 < (tpValidChannels nc zap).length := by
  obtain ⟨c, hc⟩ := hkeep
  have hcf : (inBoundsZap zap nc).contains ((c : ℕ) : ℤ) = false :=
    Bool.eq_false_iff.mpr (fun h => hc (List.elem_iff.mp h))
  have : c ∈ tpValidChannels nc zap := by
    unfold tpValidChannels
    exact List.mem_filter.mpr ⟨List.mem_finRange c, by rw [hcf]; rfl⟩
  exact List.length_pos.mpr (List.ne_nil_of_mem this)

lemma tpSubints_patched {ns nc nb : ℕ} (cube : Cube ns nc nb) (q : ℚ) (zap : List ℤ)
    (plan : SpikeSubtractionPlan ns nc nb)
    (hplan : plan = { valid_channels := tpValidChannels nc zap, mask := tpMask cube q zap,
                      replacement_values := tpRepvals cube zap })
    (hmed : ∀ i c, npMedian (profileOf (applyPlan plan cube) i c) = npMedian (profileOf cube i c))
    (hpos : 0 < (tpValidChannels nc zap).length)
    (i : Fin ns) (j : Fin nb) :
    tpSubints (applyPlan plan cube) zap i j =
      if tpMask cube q zap i j = true then (tpStats cube zap j).med
      else tpSubints cube zap i j := by
  subst hplan
  set plan : SpikeSubtractionPlan ns nc nb :=
    { valid_channels := tpValidChannels nc zap, mask := tpMask cube q zap,
      replacement_values := tpRepvals cube zap } with hplan
  have hbase : ∀ i c, tpBaselines (applyPlan plan cube) i c = tpBaselines cube i c := by
    intro i c
    exact hmed i c
  have hnz : ((tpValidChannels nc zap).length : ℚ) ≠ 0 :=
    Nat.cast_ne_zero.mpr (by omega)
  by_cases hm : tpMask cube q zap i j = true
  · rw [if_pos hm]
    unfold tpSubints
    have hmap : (tpValidChannels nc zap).map
        (fun c => applyPlan plan cube i c j - tpBaselines (applyPlan plan cube) i c) =
        (tpValidChannels nc zap).map
        (fun _ => (tpStats cube zap j).med / ((tpValidChannels nc zap).length : ℚ)) := by
      apply List.map_congr_left
      intro c hcmem
      rw [hbase i c, applyPlan_eq]
      rw [if_pos ⟨hm, hcmem⟩]
      show tpRepvals cube zap i c j - tpBaselines cube i c = _
      unfold tpRepvals
      ring
    rw [hmap, List.map_const', List.sum_replicate, nsmul_eq_mul]
    rw [mul_comm, div_mul_cancel₀ _ hnz]
  · rw [if_neg hm]
    unfold tpSubints
    congr 1
    apply List.map_congr_left
    intro c hcmem
    rw [hbase i c, applyPlan_eq]
    rw [if_neg]
    intro hcon
    exact hm hcon.1

/-- Claim C3, corrected.  As stated, the claim is false (see
`spike_refind_reflags_cell`): applying the plan can change a profile's
phase-median, which shifts the baseline used by the second run and can
re-flag an already-flagged cell.  The amended claim: if `q ≥ 0` and applying
the plan leaves every profile's median unchanged, then re-running
`find_time_phase_spikes` with the same `q` and zap list on the patched cube
yields a mask that shares no `True` cell with the original mask.  (The new
mask may still flag previously-unflagged cells.) -/
theorem spike_refind_no_overlap {ns nc nb : ℕ} (cube : Cube ns nc nb) (q : ℚ) (zap : List ℤ)
    (hq : 0 ≤ q)
    (hlen : (inBoundsZap zap nc).length ≠ nc)
    (hkeep : ∃ c : Fin nc, ((c : ℕ) : ℤ) ∉ inBoundsZap zap nc)
    (res₁ : SpikeFindingResult ns nb) (plan₁ : SpikeSubtractionPlan ns nc nb)
    (res₂ : SpikeFindingResult ns nb) (plan₂ : SpikeSubtractionPlan ns nc nb)
    (h1 : findTimePhaseSpikes cube q zap = .ok (res₁, plan₁))
    (hmed : ∀ i c, npMedian (profileOf (applyPlan plan₁ cube) i c) = npMedian (profileOf cube i c))
    (h2 : findTimePhaseSpikes (applyPlan plan₁ cube) q zap = .ok (res₂, plan₂)) :
    ∀ i j, ¬(res₂.mask i j = true ∧ res₁.mask i j = true) := by
  rw [findTimePhaseSpikes_ok cube q zap hlen] at h1
  rw [findTimePhaseSpikes_ok (applyPlan plan₁ cube) q zap hlen] at h2
  simp only [Except.ok.injEq, Prod.mk.injEq] at h1 h2
  obtain ⟨hres₁, hplan₁⟩ := h1
  obtain ⟨hres₂, _⟩ := h2
  intro i j hcon
  obtain ⟨hmask₂, hmask₁⟩ := hcon
  rw [← hres₁] at hmask₁
  rw [← hres₂] at hmask₂
  simp only [] at hmask₁ hmask₂
  -- the phase-bin column of the first run
  set x : Fin ns → ℚ := fun i' => tpSubints cube zap i' j with hx
  set xs : List ℚ := List.ofFn x with hxs
  have hstx : tpStats cube zap j = makeStats xs := rfl
  have hxsne : xs ≠ [] := by
    apply List.length_pos.mp
    rw [hxs, List.length_ofFn]
    exact i.pos
  have hflag : flagVal (makeStats xs) q (x i) = true := hmask₁
  have hex : ∃ a ∈ xs, flagVal (makeStats xs) q a = true := by
    refine ⟨x i, ?_, hflag⟩
    rw [hxs]
    exact (List.mem_ofFn x (x i)).mpr ⟨i, rfl⟩
  have hwindow := tukey_patch_window xs q hq hxsne hex
  -- the same column after patching
  have hpos := tpValidChannels_pos zap hkeep
  have hsub := tpSubints_patched cube q zap plan₁ hplan₁.symm hmed hpos
  have hys : List.ofFn (fun i' => tpSubints (applyPlan plan₁ cube) zap i' j) =
      xs.map (fun a => if flagVal (makeStats xs) q a = true then (makeStats xs).med else a) := by
    rw [hxs, List.map_ofFn]
    congr 1
    funext i'
    show tpSubints (applyPlan plan₁ cube) zap i' j = _
    rw [hsub i' j]
    rfl
  have hst2 : tpStats (applyPlan plan₁ cube) zap j =
      makeStats (xs.map (fun a => if flagVal (makeStats xs) q a = true
        then (makeStats xs).med else a)) := by
    unfold tpStats
    rw [hys]
  -- the flagged cell now carries exactly the old median
  have hval : tpSubints (applyPlan plan₁ cube) zap i j = (makeStats xs).med := by
    rw [hsub i j, if_pos hmask₁]
    rfl
  -- which the second run cannot flag again
  have : flagVal (tpStats (applyPlan plan₁ cube) zap j) q
      (tpSubints (applyPlan plan₁ cube) zap i j) = true := hmask₂
  rw [hval, hst2, flagVal_iff] at this
  rcases this with h | h
  · linarith [hwindow.1]
  · linarith [hwindow.2]

/-- Counterexample to claim C3 as stated: on the cube `cexSpikeCube`, with
the default `q = 4` and an empty zap list, both spike-finding runs succeed
and cell `(1, 1)` is `True` in the original mask and again in the mask of
the re-run on the patched cube, so `new_mask & old_mask` is not empty. -/
theorem spike_refind_reflags_cell :
    cexRun1 = .ok (cexRes1, cexPlan1) ∧
    cexRun2 = .ok (cexRes2, cexPlan2) ∧
    cexRes1.mask 1 1 = true ∧ cexRes2.mask 1 1 = true :=
  ⟨rfl, rfl, by with_unfolding_all decide, by with_unfolding_all decide⟩

/-- Witness for the amended claim C3 at a concrete input: on `witSpikeCube`
with `q = 1` the first run flags cell `(1, 1)`, patching preserves every
profile median, and the amended theorem applies, so the re-run does not
flag `(1, 1)` again. -/
theorem spike_refind_no_overlap_witness :
    witRes1.mask 1 1 = true ∧
    (∀ (i : Fin 4) (c : Fin 1),
      npMedian (profileOf (applyPlan witPlan1 witSpikeCube) i c) =
        npMedian (profileOf witSpikeCube i c)) ∧
    ¬(witRes2.mask 1 1 = true ∧ witRes1.mask 1 1 = true) :=
  ⟨by with_unfolding_all decide, by with_unfolding_all decide,
   spike_refind_no_overlap witSpikeCube 1 [] (by norm_num) (by decide) (by decide)
     witRes1 witPlan1 witRes2 witPlan2 rfl (by with_unfolding_all decide) rfl 1 1⟩

/-! ## Profile masking: structural lemmas -/

lemma resolveFeatures_error_shape {registry : FeatureRegistry} {l : List String}
    {e : ClfdError} (h : resolveFeatures registry l = .error e) :
    ∃ n, e = .featureNotFound n ∧ getFeature registry n = none ∧ n ∈ l := by
  induction l with
  | nil => simp [resolveFeatures] at h
  | cons name rest ih =>
    rw [resolveFeatures] at h
    cases hget : getFeature registry name with
    | none =>
      rw [hget] at h
      injection h with h'
      exact ⟨name, h'.symm, hget, List.mem_cons_self name rest⟩
    | some f =>
      rw [hget] at h
      cases hrest : resolveFeatures registry rest with
      | error e' =>
        rw [hrest] at h
        injection h with h'
        obtain ⟨n, hn, hg, hm⟩ := ih (by rw [hrest, h'])
        exact ⟨n, hn, hg, List.mem_cons_of_mem name hm⟩
      | ok tail => rw [hrest] at h; cases h

lemma resolveFeatures_ok_of_known {registry : FeatureRegistry} {l : List String}
    (h : ∀ n ∈ l, (getFeature registry n).isSome) :
    ∃ named, resolveFeatures registry l = .ok named ∧
      named.map Prod.fst = l ∧ ∀ p ∈ named, getFeature registry p.1 = some p.2 := by
  induction l with
  | nil => exact ⟨[], rfl, rfl, by simp⟩
  | cons name rest ih =>
    obtain ⟨f, hf⟩ := Option.isSome_iff_exists.mp (h name (List.mem_cons_self name rest))
    obtain ⟨tail, htail, hmap, hall⟩ := ih (fun n hn => h n (List.mem_cons_of_mem name hn))
    refine ⟨(name, f) :: tail, ?_, ?_, ?_⟩
    · rw [resolveFeatures, hf, htail]
    · simp [hmap]
    · intro p hp
      rcases List.mem_cons.mp hp with rfl | hp'
      · exact hf
      · exact hall p hp'

lemma pmMasks_length {ns nc nb : ℕ} (cube : Cube ns nc nb) (q : ℚ) (zap : List ℤ)
    (named : List (String × FeatureFn)) : (pmMasks cube q zap named).length = named.length := by
  unfold pmMasks pmFeatureStats pmFeatureValues
  rw [List.length_map, List.length_zip]
  simp

lemma profileMask_ok_shape {ns nc nb : ℕ} (registry : FeatureRegistry) (cube : Cube ns nc nb)
    (features : List String) (q : ℚ) (zap : List ℤ)
    (hlen : (inBoundsZap zap nc).length ≠ nc)
    (hfe : features ≠ [])
    (hknown : ∀ name ∈ features, (getFeature registry name).isSome) :
    ∃ named m0 rest,
      resolveFeatures registry features.dedup = .ok named ∧
      named.map Prod.fst = features.dedup ∧
      (∀ p ∈ named, getFeature registry p.1 = some p.2) ∧
      pmMasks cube q zap named = m0 :: rest ∧
      profileMask registry cube features q zap = .ok
        { q := q
          zap_channels := List.insertionSort (· ≤ ·) (inBoundsZap zap nc)
          feature_values := pmFeatureValues cube named
          feature_stats := pmFeatureStats cube zap named
          mask := fun i c => if (inBoundsZap zap nc).contains ((c : ℕ) : ℤ) then true
            else (rest.foldl orMask m0) i c } := by
  obtain ⟨named, hres, hmap, hall⟩ :=
    resolveFeatures_ok_of_known (l := features.dedup)
      (fun n hn => hknown n (List.mem_dedup.mp hn))
  have hnamedne : named ≠ [] := by
    intro h
    rw [h] at hmap
    exact hfe ((List.dedup_eq_nil features).mp hmap.symm)
  have hmasksne : pmMasks cube q zap named ≠ [] := by
    intro h
    have := pmMasks_length cube q zap named
    rw [h] at this
    exact hnamedne (List.length_eq_zero.mp this.symm)
  obtain ⟨m0, rest, hcons⟩ := List.exists_cons_of_ne_nil hmasksne
  refine ⟨named, m0, rest, hres, hmap, hall, hcons, ?_⟩
  unfold profileMask
  rw [if_neg hlen, hres]
  simp only [hcons]

/-- Claim C10: `SpikeSubtractionPlan.apply` returns a cube that equals its
input at every position except those with `mask[i, j]` set and `c` among
`valid_channels`, where it carries the replacement value.  The Python method
writes only into `cube.copy()`, never into its argument; in this functional
embedding that mutation-freedom is inherent, and the returned cube is fully
characterized below. -/
theorem apply_plan_frame {ns nc nb : ℕ} (plan : SpikeSubtractionPlan ns nc nb)
    (cube : Cube ns nc nb) (i : Fin ns) (c : Fin nc) (j : Fin nb) :
    applyPlan plan cube i c j =
      if plan.mask i j = true ∧ c ∈ plan.valid_channels then plan.replacement_values i c j
      else cube i c j :=
  applyPlan_eq plan cube i c j

/-- Claim C5, corrected.  As stated, the claim is false (see
`zap_channels_field_counterexample`): the filtered zap list is never
de-duplicated, and the spike-finding result keeps it in request order.  The
amended claim: `ProfileMaskingResult.zap_channels` is the in-range subset of
the requested indices sorted ascending with duplicates retained, and
`SpikeFindingResult.zap_channels` is the in-range subset in request order
with duplicates retained. -/
theorem zap_channels_field_form {ns nc nb : ℕ} (registry : FeatureRegistry)
    (cube : Cube ns nc nb) (features : List String) (q : ℚ) (zap : List ℤ)
    (hlen : (inBoundsZap zap nc).length ≠ nc)
    (hfe : features ≠ [])
    (hknown : ∀ name ∈ features, (getFeature registry name).isSome) :
    (∃ r, profileMask registry cube features q zap = .ok r ∧
      List.Sorted (· ≤ ·) r.zap_channels ∧
      r.zap_channels.Perm (inBoundsZap zap nc)) ∧
    (∃ res plan, findTimePhaseSpikes cube q zap = .ok (res, plan) ∧
      res.zap_channels = inBoundsZap zap nc) := by
  constructor
  · obtain ⟨named, m0, rest, _, _, _, _, hok⟩ :=
      profileMask_ok_shape registry cube features q zap hlen hfe hknown
    refine ⟨_, hok, ?_, ?_⟩
    · exact List.sorted_insertionSort (· ≤ ·) (inBoundsZap zap nc)
    · exact List.perm_insertionSort (· ≤ ·) (inBoundsZap zap nc)
  · exact ⟨_, _, findTimePhaseSpikes_ok cube q zap hlen, rfl⟩

/-- Counterexample to claim C5 as stated: with the duplicated request
`[0, 0]` on three channels, `profile_mask` succeeds and stores
`zap_channels = [0, 0]`, not the de-duplicated `[0]`; with the request
`[1, 0]`, `find_time_phase_spikes` succeeds and stores `[1, 0]`, not the
sorted `[0, 1]`. -/
theorem zap_channels_field_counterexample :
    dupZapRun = .ok dupZapRes ∧ dupZapRes.zap_channels = [0, 0] ∧
    unsortedZapRun = .ok (unsortedZapRes, unsortedZapPlan) ∧
    unsortedZapRes.zap_channels = [1, 0] ∧
    ([0, 0] : List ℤ) ≠ [0] ∧ ([1, 0] : List ℤ) ≠ [0, 1] :=
  ⟨rfl, by with_unfolding_all decide, rfl, by with_unfolding_all decide,
   by decide, by decide⟩

/-- Witness for the amended claim C5 at a concrete input: requested zap list
`[5, 0, -3]` on a 3-channel cube resolves to the in-range subset `[0]`. -/
theorem zap_channels_field_form_witness :
    (∃ r, profileMask tinyRegistry (zeroCube 1 3 2) ["f"] 2 [5, 0, -3] = .ok r ∧
      List.Sorted (· ≤ ·) r.zap_channels ∧
      r.zap_channels.Perm (inBoundsZap [5, 0, -3] 3)) ∧
    (∃ res plan, findTimePhaseSpikes (zeroCube 1 3 2) 2 [5, 0, -3] = .ok (res, plan) ∧
      res.zap_channels = inBoundsZap [5, 0, -3] 3) :=
  zap_channels_field_form tinyRegistry (zeroCube 1 3 2) ["f"] 2 [5, 0, -3]
    (by decide) (by decide) (by decide)

lemma profileMask_config_error_iff {ns nc nb : ℕ} (registry : FeatureRegistry)
    (cube : Cube ns nc nb) (features : List String) (q : ℚ) (zap : List ℤ) :
    profileMask registry cube features q zap = .error .configurationError ↔
      (inBoundsZap zap nc).length = nc := by
  constructor
  · intro h
    by_contra hlen
    unfold profileMask at h
    rw [if_neg hlen] at h
    split at h
    · rename_i e heq
      injection h with h'
      obtain ⟨n, hn, _, _⟩ := resolveFeatures_error_shape heq
      rw [hn] at h'
      cases h'
    · rename_i named heq
      split at h
      · injection h with h'
        cases h'
      · cases h
  · intro hlen
    unfold profileMask
    rw [if_pos hlen]

lemma findTimePhaseSpikes_config_error_iff {ns nc nb : ℕ} (cube : Cube ns nc nb)
    (q : ℚ) (zap : List ℤ) :
    findTimePhaseSpikes cube q zap = .error .configurationError ↔
      (inBoundsZap zap nc).length = nc := by
  constructor
  · intro h
    by_contra hlen
    rw [findTimePhaseSpikes_ok cube q zap hlen] at h
    cases h
  · intro hlen
    unfold findTimePhaseSpikes
    rw [if_pos hlen]

lemma inBoundsZap_covers_iff_of_nodup {zap : List ℤ} {nc : ℕ} (hnodup : zap.Nodup) :
    (inBoundsZap zap nc).length = nc ↔
      ∀ c : Fin nc, ((c : ℕ) : ℤ) ∈ inBoundsZap zap nc := by
  have hFnodup : (inBoundsZap zap nc).Nodup := hnodup.filter _
  have hcard : (inBoundsZap zap nc).toFinset.card = (inBoundsZap zap nc).length :=
    List.toFinset_card_of_nodup hFnodup
  have hinj : Function.Injective (fun k : ℕ => (k : ℤ)) := fun a b h => by
    simp only [] at h
    exact_mod_cast h
  set I : Finset ℤ := (Finset.range nc).image (fun k : ℕ => (k : ℤ)) with hI
  have hcardI : I.card = nc := by
    rw [hI, Finset.card_image_of_injective _ hinj, Finset.card_range]
  have hsub : (inBoundsZap zap nc).toFinset ⊆ I := by
    intro z hz
    have hzmem : z ∈ inBoundsZap zap nc := List.mem_toFinset.mp hz
    have hzb : 0 ≤ z ∧ z < (nc : ℤ) := by
      have := List.mem_filter.mp hzmem
      simpa using this.2
    rw [hI, Finset.mem_image]
    refine ⟨z.toNat, Finset.mem_range.mpr ?_, ?_⟩
    · omega
    · omega
  constructor
  · intro hlen
    have heq : (inBoundsZap zap nc).toFinset = I :=
      Finset.eq_of_subset_of_card_le hsub (by omega)
    intro c
    have hcI : ((c : ℕ) : ℤ) ∈ I := by
      rw [hI, Finset.mem_image]
      exact ⟨(c : ℕ), Finset.mem_range.mpr c.2, rfl⟩
    rw [← heq] at hcI
    exact List.mem_toFinset.mp hcI
  · intro hcov
    have hsub2 : I ⊆ (inBoundsZap zap nc).toFinset := by
      intro z hz
      rw [hI, Finset.mem_image] at hz
      obtain ⟨k, hk, rfl⟩ := hz
      exact List.mem_toFinset.mpr (hcov ⟨k, Finset.mem_range.mp hk⟩)
    have heq : (inBoundsZap zap nc).toFinset = I :=
      Finset.Subset.antisymm hsub hsub2
    have := congrArg Finset.card heq
    omega

/-- Claim C4, corrected.  Out-of-range zap indices are indeed silently
dropped, but as stated the claim is false (see
`zap_config_error_counterexample`): the filtered request list keeps
duplicates, and the functions fail exactly when its length (counting
multiplicity) equals `num_chan` — with duplicated in-range indices this
fires without the exclusion set covering all channels.  The amended claim:
both functions fail with `ConfigurationError` iff the number of in-range
requested indices, counted with multiplicity, equals `num_chan`; for a
duplicate-free request this coincides with the exclusion set covering every
channel. -/
theorem zap_config_error_iff {ns nc nb : ℕ} (registry : FeatureRegistry)
    (cube : Cube ns nc nb) (features : List String) (q : ℚ) (zap : List ℤ) :
    (∀ i ∈ zap, ¬(0 ≤ i ∧ i < (nc : ℤ)) → i ∉ inBoundsZap zap nc) ∧
    (profileMask registry cube features q zap = .error .configurationError ↔
      zap.countP (fun i => decide (0 ≤ i) && decide (i < (nc : ℤ))) = nc) ∧
    (findTimePhaseSpikes cube q zap = .error .configurationError ↔
      zap.countP (fun i => decide (0 ≤ i) && decide (i < (nc : ℤ))) = nc) ∧
    (zap.Nodup →
      (profileMask registry cube features q zap = .error .configurationError ↔
        ∀ c : Fin nc, ((c : ℕ) : ℤ) ∈ inBoundsZap zap nc)) := by
  have hcnt : zap.countP (fun i => decide (0 ≤ i) && decide (i < (nc : ℤ))) =
      (inBoundsZap zap nc).length := List.countP_eq_length_filter _ _
  refine ⟨?_, ?_, ?_, ?_⟩
  · intro i _ hout hmem
    have := List.mem_filter.mp hmem
    simp only [Bool.and_eq_true, decide_eq_true_eq] at this
    exact hout this.2
  · rw [hcnt]
    exact profileMask_config_error_iff registry cube features q zap
  · rw [hcnt]
    exact findTimePhaseSpikes_config_error_iff cube q zap
  · intro hnodup
    rw [profileMask_config_error_iff registry cube features q zap]
    exact inBoundsZap_covers_iff_of_nodup hnodup

/-- Counterexample to claim C4 as stated: the duplicated in-range request
`[0, 0]` on a 2-channel cube makes both functions fail with the
configuration error, although the exclusion set (just channel 0) does not
cover all channels. -/
theorem zap_config_error_counterexample :
    profileMask tinyRegistry (zeroCube 1 2 2) ["f"] 2 [0, 0] = .error .configurationError ∧
    findTimePhaseSpikes (zeroCube 1 2 2) 2 [0, 0] = .error .configurationError ∧
    ¬(∀ c : Fin 2, ((c : ℕ) : ℤ) ∈ inBoundsZap [0, 0] 2) :=
  ⟨rfl, rfl, by decide⟩

/-- Witness for the amended claim C4 at a concrete input, discharging the
duplicate-free proviso for the request `[200, 0, 1]` on a 2-channel cube
(the out-of-range `200` is dropped and the remaining indices cover both
channels, so the call fails with the configuration error). -/
theorem zap_config_error_iff_witness :
    (findTimePhaseSpikes (zeroCube 1 2 2) 2 [200, 0, 1] = .error .configurationError ↔
      ([200, 0, 1] : List ℤ).countP (fun i => decide (0 ≤ i) && decide (i < (2 : ℤ))) = 2) ∧
    (profileMask tinyRegistry (zeroCube 1 2 2) ["f"] 2 [200, 0, 1] =
        .error .configurationError ↔
      ∀ c : Fin 2, ((c : ℕ) : ℤ) ∈ inBoundsZap [200, 0, 1] 2) :=
  ⟨(zap_config_error_iff tinyRegistry (zeroCube 1 2 2) ["f"] 2 [200, 0, 1]).2.2.1,
   (zap_config_error_iff tinyRegistry (zeroCube 1 2 2) ["f"] 2 [200, 0, 1]).2.2.2 (by decide)⟩

/-! ## Degenerate features and the registry -/

/-- Claim C6: a profile with zero variance yields `skew = 0`,
`kurtosis = +inf`, and `acf = 0`: the `np.where` branches on `m2 == 0` are
taken for `skew` and `kurtosis`, and `acf` replaces the zero variance by
`+inf` before dividing, so the ratio is `0` rather than NaN.  The statement
holds for every non-degenerate-branch implementation `g` of `skew`. -/
theorem degenerate_feature_values (xs : List ℚ) (hne : xs ≠ []) (hvar : npVar xs = 0) :
    (∀ g, skew g xs = 0) ∧ kurtosis xs = NpVal.inf ∧ acf xs = 0 := by
  have hm2 : npMoment xs (npMean xs) 2 = 0 := hvar
  have hlen : (0 : ℚ) ≤ (xs.length : ℚ) := by positivity
  refine ⟨?_, ?_, ?_⟩
  · intro g
    show (if npMoment xs (npMean xs) 2 = 0 then (0 : ℚ) else g xs) = 0
    rw [if_pos hm2]
  · show (if npMoment xs (npMean xs) 2 = 0 then NpVal.inf
      else NpVal.val (npMoment xs (npMean xs) 4 / npMoment xs (npMean xs) 2 ^ 2 - 3)) = NpVal.inf
    rw [if_pos hm2]
  · show divByNpVal (npAutocov xs) (if npVar xs = 0 then NpVal.inf else NpVal.val (npVar xs)) = 0
    rw [if_pos hvar]
    rfl

/-- Witness for claim C6 at the constant profile `[2, 2, 2]`. -/
theorem degenerate_feature_values_witness :
    ([2, 2, 2] : List ℚ) ≠ [] ∧ npVar [2, 2, 2] = 0 ∧
    ((∀ g, skew g [2, 2, 2] = 0) ∧ kurtosis [2, 2, 2] = NpVal.inf ∧ acf [2, 2, 2] = 0) :=
  ⟨by decide, by with_unfolding_all decide,
   degenerate_feature_values [2, 2, 2] (by decide) (by with_unfolding_all decide)⟩

lemma getFeature_eq_none_iff {registry : FeatureRegistry} {name : String} :
    getFeature registry name = none ↔ name ∉ registry.map Prod.fst := by
  induction registry with
  | nil => simp [getFeature, List.lookup]
  | cons p rest ih =>
    unfold getFeature at *
    rw [List.lookup]
    by_cases hk : name = p.1
    · simp [beq_iff_eq.mpr hk, hk]
    · simp only [beq_eq_false_iff_ne.mpr hk]
      simp only [List.map_cons, List.mem_cons]
      rw [ih]
      constructor
      · intro h hcon
        rcases hcon with h' | h'
        · exact hk h'
        · exact h h'
      · intro h h'
        exact h (Or.inr h')

lemma resolveFeatures_ok_shape {registry : FeatureRegistry} {l : List String}
    {named : List (String × FeatureFn)} (h : resolveFeatures registry l = .ok named) :
    named.map Prod.fst = l ∧ ∀ p ∈ named, getFeature registry p.1 = some p.2 := by
  induction l generalizing named with
  | nil =>
    rw [resolveFeatures] at h
    injection h with h'
    subst h'
    exact ⟨rfl, by simp⟩
  | cons name rest ih =>
    rw [resolveFeatures] at h
    cases hget : getFeature registry name with
    | none => rw [hget] at h; cases h
    | some f =>
      rw [hget] at h
      cases hrest : resolveFeatures registry rest with
      | error e => rw [hrest] at h; cases h
      | ok tail =>
        rw [hrest] at h
        injection h with h'
        subst h'
        obtain ⟨hmap, hall⟩ := ih hrest
        refine ⟨by simp [hmap], ?_⟩
        intro p hp
        rcases List.mem_cons.mp hp with rfl | hp'
        · exact hget
        · exact hall p hp'

/-- Claim C8: with the process-start registry (whose keys are exactly
`acf, kurtosis, lfamp, ptp, skew, std, var`), a feature list containing an
unknown name makes `profile_mask` fail with the `KeyError` of `get_feature`
(carrying some unknown name) before any result is produced; lookup never
falls back to a default feature.  The zap list is assumed not to trigger the
earlier all-channels-zapped check, which takes precedence in the source. -/
theorem unknown_feature_error {ns nc nb : ℕ} (registry : FeatureRegistry)
    (hreg : registry.map Prod.fst = availableFeatureNames)
    (cube : Cube ns nc nb) (features : List String) (q : ℚ) (zap : List ℤ)
    (name : String) (hmem : name ∈ features) (hunknown : name ∉ availableFeatureNames)
    (hlen : (inBoundsZap zap nc).length ≠ nc) :
    ∃ m, profileMask registry cube features q zap = .error (.featureNotFound m) ∧
      m ∉ availableFeatureNames := by
  have hnone : getFeature registry name = none :=
    getFeature_eq_none_iff.mpr (by rw [hreg]; exact hunknown)
  cases hres : resolveFeatures registry features.dedup with
  | ok named =>
    exfalso
    obtain ⟨hmap, hall⟩ := resolveFeatures_ok_shape hres
    have hkey : name ∈ named.map Prod.fst := by
      rw [hmap]
      exact List.mem_dedup.mpr hmem
    obtain ⟨p, hp, hp1⟩ := List.mem_map.mp hkey
    have := hall p hp
    rw [hp1, hnone] at this
    cases this
  | error e =>
    obtain ⟨n, hn, hgn, _⟩ := resolveFeatures_error_shape hres
    refine ⟨n, ?_, ?_⟩
    · unfold profileMask
      rw [if_neg hlen, hres, hn]
    · rw [← hreg]
      exact getFeature_eq_none_iff.mp hgn

/-- Witness for claim C8: the feature list `["std", "bogus"]` against a
registry carrying exactly the registered names. -/
theorem unknown_feature_error_witness :
    ∃ m, profileMask namesOnlyRegistry (zeroCube 1 1 2) ["std", "bogus"] 2 [] =
      .error (.featureNotFound m) ∧ m ∉ availableFeatureNames :=
  unknown_feature_error namesOnlyRegistry (by decide) (zeroCube 1 1 2) ["std", "bogus"] 2 []
    "bogus" (by decide) (by decide) (by decide)

/-- Claim C9: `DataCube` construction fails with the shape error exactly
when the input does not have 3 axes, has fewer than 2 profiles
(`shape[0] * shape[1] < 2`), or fewer than 2 phase bins (`shape[2] < 2`);
on success the stored data is the input with each profile's phase-median
subtracted, and adding the stored baselines recovers the input exactly. -/
theorem data_cube_construction (x : NDInput) :
    (makeDataCube x = .error .shapeError ↔
      ¬(x.shape.length = 3 ∧ 2 ≤ x.shape.getD 0 0 * x.shape.getD 1 0 ∧
        2 ≤ x.shape.getD 2 0)) ∧
    ((x.shape.length = 3 ∧ 2 ≤ x.shape.getD 0 0 * x.shape.getD 1 0 ∧
        2 ≤ x.shape.getD 2 0) →
      ∃ cube, makeDataCube x = .ok cube ∧
        cube.numSubints = x.shape.getD 0 0 ∧
        cube.numChans = x.shape.getD 1 0 ∧
        cube.numBins = x.shape.getD 2 0 ∧
        (∀ i c, cube.baselines i c =
          npMedian (List.ofFn (fun j : Fin cube.numBins =>
            ndGet3 x cube.numChans cube.numBins i c j))) ∧
        (∀ i c (j : Fin cube.numBins), cube.data i c j =
          ndGet3 x cube.numChans cube.numBins i c j -
            npMedian (List.ofFn (fun j : Fin cube.numBins =>
              ndGet3 x cube.numChans cube.numBins i c j))) ∧
        (∀ i c (j : Fin cube.numBins), cube.data i c j + cube.baselines i c =
          ndGet3 x cube.numChans cube.numBins i c j)) := by
  unfold makeDataCube
  rcases hsh : x.shape with _ | ⟨s0, _ | ⟨s1, _ | ⟨s2, _ | ⟨s3, rest⟩⟩⟩⟩ <;>
    simp only [hsh, List.getD_cons_zero, List.getD_cons_succ, List.length_cons,
      List.length_nil, List.getD_nil]
  · simp
  · simp
  · simp
  · by_cases h1 : s0 * s1 < 2
    · rw [if_pos h1]
      constructor
      · constructor
        · intro _ hcon
          omega
        · intro _
          rfl
      · intro hcon
        exfalso
        omega
    · rw [if_neg h1]
      by_cases h2 : s2 < 2
      · rw [if_pos h2]
        constructor
        · constructor
          · intro _ hcon
            omega
          · intro _
            rfl
        · intro hcon
          exfalso
          omega
      · rw [if_neg h2]
        constructor
        · constructor
          · intro hcon
            exact Except.noConfusion hcon
          · intro hcon
            exfalso
            exact hcon ⟨trivial, by omega, by omega⟩
        · intro _
          exact ⟨_, rfl, rfl, rfl, rfl, fun i c => rfl, fun i c j => rfl,
            fun i c j => by ring⟩
  · simp

/-- Witness for claim C9 at a concrete valid input of shape `(1, 2, 2)`. -/
theorem data_cube_construction_witness :
    (witNDInput.shape.length = 3 ∧
      2 ≤ witNDInput.shape.getD 0 0 * witNDInput.shape.getD 1 0 ∧
      2 ≤ witNDInput.shape.getD 2 0) ∧
    ∃ cube, makeDataCube witNDInput = .ok cube ∧
      cube.numSubints = witNDInput.shape.getD 0 0 ∧
      cube.numChans = witNDInput.shape.getD 1 0 ∧
      cube.numBins = witNDInput.shape.getD 2 0 ∧
      (∀ i c, cube.baselines i c =
        npMedian (List.ofFn (fun j : Fin cube.numBins =>
          ndGet3 witNDInput cube.numChans cube.numBins i c j))) ∧
      (∀ i c (j : Fin cube.numBins), cube.data i c j =
        ndGet3 witNDInput cube.numChans cube.numBins i c j -
          npMedian (List.ofFn (fun j : Fin cube.numBins =>
            ndGet3 witNDInput cube.numChans cube.numBins i c j))) ∧
      (∀ i c (j : Fin cube.numBins), cube.data i c j + cube.baselines i c =
        ndGet3 witNDInput cube.numChans cube.numBins i c j) :=
  ⟨⟨by decide, by decide, by decide⟩,
   (data_cube_construction witNDInput).2 ⟨by decide, by decide, by decide⟩⟩

/-! ## Bridges between list folds and finset sums -/

lemma filter_map_sum {α M : Type} [AddCommMonoid M] (p : α → Bool) (f : α → M) (l : List α) :
    ((l.filter p).map f).sum = (l.map (fun a => if p a = true then f a else 0)).sum := by
  induction l with
  | nil => rfl
  | cons a t ih =>
    rw [List.filter_cons]
    by_cases hp : p a
    · rw [if_pos hp]
      simp only [List.map_cons, List.sum_cons, ih, if_pos hp]
    · rw [if_neg hp]
      simp only [List.map_cons, List.sum_cons, ih, if_neg hp, zero_add]

lemma finRange_filter_map_sum {n : ℕ} (p : Fin n → Bool) (f : Fin n → ℚ) :
    ((((List.finRange n).filter p).map f)).sum =
      ∑ c ∈ Finset.univ.filter (fun c => p c = true), f c := by
  rw [Finset.sum_filter, Fin.sum_univ_def, filter_map_sum]

lemma finRange_filter_length {n : ℕ} (p : Fin n → Bool) :
    ((List.finRange n).filter p).length = (Finset.univ.filter (fun c => p c = true)).card := by
  have h1 : ((List.finRange n).filter p).length =
      ((((List.finRange n).filter p).map (fun _ => (1 : ℕ)))).sum := by
    rw [List.map_const', List.sum_replicate, smul_eq_mul, mul_one]
  rw [h1, filter_map_sum, Finset.card_filter, Fin.sum_univ_def]

lemma tpValidChannels_eq_finset {nc : ℕ} (zap : List ℤ) :
    Finset.univ.filter
        (fun c : Fin nc => (! (inBoundsZap zap nc).contains ((c : ℕ) : ℤ)) = true) =
      Finset.univ.filter (fun c : Fin nc => ((c : ℕ) : ℤ) ∉ inBoundsZap zap nc) := by
  apply Finset.filter_congr
  intro c _
  simp only [Bool.not_eq_true', eq_iff_iff]
  constructor
  · intro h hmem
    have hc : (inBoundsZap zap nc).contains ((c : ℕ) : ℤ) = true := List.elem_iff.mpr hmem
    rw [hc] at h
    cases h
  · intro h
    exact Bool.eq_false_iff.mpr (fun hcon => h (List.elem_iff.mp hcon))

/-- Claim C2: characterization of `find_time_phase_spikes`.  Baselines are
the phase-medians of the raw cube; the summed time-phase plane over the
non-zapped channels gets per-phase-bin quartiles along the subint axis;
the mask flags exactly the cells strictly outside the Tukey window
`[q1 - q*(q3-q1), q3 + q*(q3-q1)]` of their phase bin; and every
replacement value is `med[phase] / (count of valid channels) +
baseline[subint, channel]`. -/
theorem spike_mask_characterization {ns nc nb : ℕ} (cube : Cube ns nc nb) (q : ℚ)
    (zap : List ℤ)
    (hlen : (inBoundsZap zap nc).length ≠ nc)
    (hkeep : ∃ c : Fin nc, ((c : ℕ) : ℤ) ∉ inBoundsZap zap nc) :
    ∃ res plan, findTimePhaseSpikes cube q zap = .ok (res, plan) ∧
      (∀ i j, res.mask i j = true ↔
        (specSubints cube zap i j <
          (specColStats cube zap j).q1 -
            q * ((specColStats cube zap j).q3 - (specColStats cube zap j).q1) ∨
         (specColStats cube zap j).q3 +
            q * ((specColStats cube zap j).q3 - (specColStats cube zap j).q1) <
          specSubints cube zap i j)) ∧
      (∀ i c j, plan.replacement_values i c j =
        (specColStats cube zap j).med / ((specKeepSet zap nc).card : ℚ) +
          npMedian (profileOf cube i c)) := by
  refine ⟨_, _, findTimePhaseSpikes_ok cube q zap hlen, ?_, ?_⟩
  all_goals
    have hsub : ∀ (i : Fin ns) (j : Fin nb),
        tpSubints cube zap i j = specSubints cube zap i j := by
      intro i j
      unfold tpSubints tpValidChannels tpBaselines specSubints specKeepSet
      rw [finRange_filter_map_sum, tpValidChannels_eq_finset]
    have hstats : ∀ j : Fin nb, tpStats cube zap j = specColStats cube zap j := by
      intro j
      unfold tpStats specColStats
      congr 1
      apply congrArg
      funext i'
      exact hsub i' j
  · intro i j
    show tpMask cube q zap i j = true ↔ _
    unfold tpMask
    rw [flagVal_iff, hstats j, hsub i j]
    rfl
  · intro i c j
    show tpRepvals cube zap i c j = _
    unfold tpRepvals tpBaselines
    rw [hstats j]
    have hcard : (tpValidChannels nc zap).length = (specKeepSet zap nc).card := by
      unfold tpValidChannels specKeepSet
      rw [finRange_filter_length, tpValidChannels_eq_finset]
    rw [hcard]
    ring

/-- Witness for claim C2 on a concrete 2-subint, 2-channel, 2-bin cube with
channel 1 zapped. -/
theorem spike_mask_characterization_witness :
    ∃ res plan, findTimePhaseSpikes witTPCube 1 [1] = .ok (res, plan) ∧
      (∀ i j, res.mask i j = true ↔
        (specSubints witTPCube [1] i j <
          (specColStats witTPCube [1] j).q1 -
            1 * ((specColStats witTPCube [1] j).q3 - (specColStats witTPCube [1] j).q1) ∨
         (specColStats witTPCube [1] j).q3 +
            1 * ((specColStats witTPCube [1] j).q3 - (specColStats witTPCube [1] j).q1) <
          specSubints witTPCube [1] i j)) ∧
      (∀ i c j, plan.replacement_values i c j =
        (specColStats witTPCube [1] j).med / ((specKeepSet [1] 2).card : ℚ) +
          npMedian (profileOf witTPCube i c)) :=
  spike_mask_characterization witTPCube 1 [1] (by decide) (by decide)

lemma foldl_orMask_true {ns nc : ℕ} (rest : List (Fin ns → Fin nc → Bool))
    (m0 : Fin ns → Fin nc → Bool) (i : Fin ns) (c : Fin nc) :
    (rest.foldl orMask m0) i c = true ↔ m0 i c = true ∨ ∃ m ∈ rest, m i c = true := by
  induction rest generalizing m0 with
  | nil => simp
  | cons m t ih =>
    rw [List.foldl_cons, ih]
    simp only [orMask, Bool.or_eq_true, List.mem_cons]
    constructor
    · rintro (⟨h | h⟩ | ⟨m', hm', h⟩)
      · exact Or.inl h
      · exact Or.inr ⟨m, Or.inl rfl, h⟩
      · exact Or.inr ⟨m', Or.inr hm', h⟩
    · rintro (h | ⟨m', hm' | hm', h⟩)
      · exact Or.inl (Or.inl h)
      · exact Or.inl (Or.inr (hm' ▸ h))
      · exact Or.inr ⟨m', hm', h⟩

lemma pmMasks_eq_map {ns nc nb : ℕ} (cube : Cube ns nc nb) (q : ℚ) (zap : List ℤ)
    (named : List (String × FeatureFn)) :
    pmMasks cube q zap named = named.map (fun nf =>
      makeFeatureMask (fun i c => nf.2 (profileOf cube i c))
        (makeStats (popList (fun i c => nf.2 (profileOf cube i c)) (pmKeep zap nc))) q) := by
  unfold pmMasks pmFeatureStats pmFeatureValues
  rw [List.map_map, List.zip_map', List.map_map]
  rfl

/-- Claim C1: characterization of `profile_mask`.  The returned mask (a
2D boolean array over subints and channels, which the embedding carries in
its type) is `True` at `(i, c)` exactly when `c` is a resolved zapped
channel or some requested feature's value at `(i, c)` falls strictly
outside the Tukey window of that feature's quartiles over the non-zapped
channel population; in particular every zapped column is `True` in every
row. -/
theorem profile_mask_characterization {ns nc nb : ℕ} (registry : FeatureRegistry)
    (cube : Cube ns nc nb) (features : List String) (q : ℚ) (zap : List ℤ)
    (hlen : (inBoundsZap zap nc).length ≠ nc)
    (hfe : features ≠ [])
    (hknown : ∀ name ∈ features, (getFeature registry name).isSome)
    (hkeep : ∃ c : Fin nc, ((c : ℕ) : ℤ) ∉ inBoundsZap zap nc) :
    ∃ r, profileMask registry cube features q zap = .ok r ∧
      (∀ (i : Fin ns) (c : Fin nc), r.mask i c = true ↔
        (((c : ℕ) : ℤ) ∈ inBoundsZap zap nc ∨
         ∃ name f, name ∈ features ∧ getFeature registry name = some f ∧
           specFeatureOutlier cube zap q f i c)) ∧
      (∀ (i : Fin ns) (c : Fin nc),
        ((c : ℕ) : ℤ) ∈ inBoundsZap zap nc → r.mask i c = true) := by
  obtain ⟨named, m0, rest, hres, hmap, hall, hcons, hok⟩ :=
    profileMask_ok_shape registry cube features q zap hlen hfe hknown
  refine ⟨_, hok, ?_, ?_⟩
  · intro i c
    show (if (inBoundsZap zap nc).contains ((c : ℕ) : ℤ) then true
        else (rest.foldl orMask m0) i c) = true ↔ _
    by_cases hc : (inBoundsZap zap nc).contains ((c : ℕ) : ℤ) = true
    · rw [if_pos hc]
      simp only [true_iff]
      exact Or.inl (List.elem_iff.mp hc)
    · rw [if_neg hc]
      have hcmem : ((c : ℕ) : ℤ) ∉ inBoundsZap zap nc :=
        fun hmem => hc (List.elem_iff.mpr hmem)
      rw [foldl_orMask_true]
      have hmem_masks : ∀ m, (m = m0 ∨ m ∈ rest) ↔ m ∈ pmMasks cube q zap named := by
        intro m
        rw [hcons, List.mem_cons]
      constructor
      · have hcase : ∀ m, m ∈ pmMasks cube q zap named → m i c = true →
            ∃ name f, name ∈ features ∧ getFeature registry name = some f ∧
              specFeatureOutlier cube zap q f i c := by
          intro m hm h
          rw [pmMasks_eq_map] at hm
          obtain ⟨nf, hnf, hnfe⟩ := List.mem_map.mp hm
          refine ⟨nf.1, nf.2, List.mem_dedup.mp (hmap ▸ List.mem_map_of_mem Prod.fst hnf),
            hall nf hnf, ?_⟩
          rw [← hnfe] at h
          unfold makeFeatureMask at h
          rw [flagVal_iff] at h
          exact h
        rintro (h | ⟨m, hm, h⟩)
        · exact Or.inr (hcase m0 ((hmem_masks m0).mp (Or.inl rfl)) h)
        · exact Or.inr (hcase m ((hmem_masks m).mp (Or.inr hm)) h)
      · rintro (h | ⟨name, f, hname, hget, houtlier⟩)
        · exact absurd h hcmem
        · have hnamed : name ∈ named.map Prod.fst := by
            rw [hmap]
            exact List.mem_dedup.mpr hname
          obtain ⟨nf, hnf, hnf1⟩ := List.mem_map.mp hnamed
          have hf : nf.2 = f := by
            have h2 := hall nf hnf
            rw [hnf1, hget] at h2
            exact (Option.some.inj h2).symm
          have hm : makeFeatureMask (fun i' c' => nf.2 (profileOf cube i' c'))
              (makeStats (popList (fun i' c' => nf.2 (profileOf cube i' c'))
                (pmKeep zap nc))) q ∈ pmMasks cube q zap named := by
            rw [pmMasks_eq_map]
            exact List.mem_map_of_mem _ hnf
          have hflag : makeFeatureMask (fun i' c' => nf.2 (profileOf cube i' c'))
              (makeStats (popList (fun i' c' => nf.2 (profileOf cube i' c'))
                (pmKeep zap nc))) q i c = true := by
            unfold makeFeatureMask
            rw [flagVal_iff, hf]
            exact houtlier
          rcases (hmem_masks _).mpr hm with heq | hmem'
          · exact Or.inl (heq ▸ hflag)
          · exact Or.inr ⟨_, hmem', hflag⟩
  · intro i c hc
    show (if (inBoundsZap zap nc).contains ((c : ℕ) : ℤ) then true
        else (rest.foldl orMask m0) i c) = true
    rw [if_pos (List.elem_iff.mpr hc)]

/-! ## Serialization round trip -/

lemma jNat_roundtrip (n : ℕ) : jNat (.num (n : ℚ)) = some n := by
  show (if (n : ℚ).den = 1 ∧ 0 ≤ (n : ℚ).num then some (n : ℚ).num.toNat else none) = some n
  rw [if_pos ⟨Rat.den_natCast n, by rw [Rat.num_natCast]; exact Int.natCast_nonneg n⟩]
  rw [Rat.num_natCast]
  simp

lemma jInt_roundtrip (z : ℤ) : jInt (.num (z : ℚ)) = some z := by
  show (if (z : ℚ).den = 1 then some (z : ℚ).num else none) = some z
  rw [if_pos (Rat.den_intCast z), Rat.num_intCast]

lemma optionAll_map_eq {α β : Type} (l : List α) (f : α → Option β) (g : α → β)
    (h : ∀ a ∈ l, f a = some (g a)) : optionAll (l.map f) = some (l.map g) := by
  induction l with
  | nil => rfl
  | cons a t ih =>
    rw [List.map_cons, List.map_cons, h a (by simp)]
    show (match optionAll (t.map f) with
      | none => none
      | some tail => some (g a :: tail)) = _
    rw [ih (fun x hx => h x (by simp [hx]))]

lemma sextet_roundtrip : ∀ k < 64, sextetValue (sextetChar k) = k := by decide

lemma sextetChar_ne_pad : ∀ k < 64, sextetChar k ≠ '=' := by decide

lemma b64_roundtrip : ∀ bs : List ℕ, bytesWF bs → b64Decode (b64Encode bs) = bs := by
  intro bs
  induction bs using b64Encode.induct with
  | case1 a b c rest ih =>
    intro h
    have ha : a < 256 := h a (by simp)
    have hb : b < 256 := h b (by simp)
    have hc : c < 256 := h c (by simp)
    rw [b64Encode]
    set n := (a * 256 + b) * 256 + c with hn
    have hnlt : n < 16777216 := by omega
    rw [b64Decode]
    rw [if_neg (sextetChar_ne_pad (n / 64 % 64) (by omega))]
    rw [if_neg (sextetChar_ne_pad (n % 64) (by omega))]
    rw [sextet_roundtrip (n / 262144) (by omega), sextet_roundtrip (n / 4096 % 64) (by omega),
      sextet_roundtrip (n / 64 % 64) (by omega), sextet_roundtrip (n % 64) (by omega)]
    rw [ih (fun x hx => h x (by simp [hx]))]
    have e1 : n / 262144 * 262144 + n / 4096 % 64 * 4096 + n / 64 % 64 * 64 + n % 64 = n := by
      omega
    rw [e1]
    show n / 65536 :: n / 256 % 256 :: n % 256 :: rest = a :: b :: c :: rest
    have e2 : n / 65536 = a := by omega
    have e3 : n / 256 % 256 = b := by omega
    have e4 : n % 256 = c := by omega
    rw [e2, e3, e4]
  | case2 a b =>
    intro h
    have ha : a < 256 := h a (by simp)
    have hb : b < 256 := h b (by simp)
    rw [b64Encode]
    set n := (a * 256 + b) * 256 with hn
    have hnlt : n < 16777216 := by omega
    rw [b64Decode]
    rw [if_neg (sextetChar_ne_pad (n / 64 % 64) (by omega))]
    rw [if_pos rfl]
    rw [sextet_roundtrip (n / 262144) (by omega), sextet_roundtrip (n / 4096 % 64) (by omega),
      sextet_roundtrip (n / 64 % 64) (by omega)]
    show [(n / 262144 * 262144 + n / 4096 % 64 * 4096 + n / 64 % 64 * 64) / 65536,
      (n / 262144 * 262144 + n / 4096 % 64 * 4096 + n / 64 % 64 * 64) / 256 % 256] = [a, b]
    have e1 : (n / 262144 * 262144 + n / 4096 % 64 * 4096 + n / 64 % 64 * 64) / 65536 = a := by
      omega
    have e2 : (n / 262144 * 262144 + n / 4096 % 64 * 4096 + n / 64 % 64 * 64) / 256 % 256 = b := by
      omega
    rw [e1, e2]
  | case3 a =>
    intro h
    have ha : a < 256 := h a (by simp)
    rw [b64Encode]
    set n := a * 256 * 256 with hn
    have hnlt : n < 16777216 := by omega
    rw [b64Decode]
    rw [if_pos rfl]
    rw [sextet_roundtrip (n / 262144) (by omega), sextet_roundtrip (n / 4096 % 64) (by omega)]
    show [(n / 262144 * 262144 + n / 4096 % 64 * 4096) / 65536] = [a]
    have e1 : (n / 262144 * 262144 + n / 4096 % 64 * 4096) / 65536 = a := by omega
    rw [e1]
  | case4 =>
    intro _
    rfl

lemma ndarray_roundtrip (a : NDArrayRep) (h : bytesWF a.buffer) :
    deserializeNdarray (serializeNdarray a) = some a := by
  have e1 : deserializeNdarray (serializeNdarray a) =
      match optionAll ((a.shape.map (fun n : ℕ => JVal.num (n : ℚ))).map jNat) with
      | some sh => some (NDArrayRep.mk sh a.dtype (b64Decode (String.mk (b64Encode a.buffer)).toList))
      | none => none := rfl
  rw [e1, List.map_map]
  rw [optionAll_map_eq a.shape (jNat ∘ fun n : ℕ => JVal.num (n : ℚ)) (fun n => n)
    (fun n _ => jNat_roundtrip n)]
  have hstr : (String.mk (b64Encode a.buffer)).toList = b64Encode a.buffer := rfl
  rw [hstr, b64_roundtrip a.buffer h, List.map_id']

lemma stats_roundtrip (s : Stats) : deserializeStats (serializeStats s) = some s := rfl

/-- Claim C7: serializing a `ProfileMaskingResult` or a `SpikeFindingResult`
to the JSON tree (arrays carried as shape, dtype string and base64-encoded
byte buffer) and deserializing it reproduces the record exactly: scalar
fields are equal and the embedded arrays come back with identical bytes,
shape and dtype.  The `json.dumps`/`json.loads` text layer is the Python
standard library and is modelled as the identity on JSON trees. -/
theorem serialization_roundtrip :
    (∀ r : SerializedProfileMaskingResult, pmRecordWF r →
      deserializePMResult (serializePMResult r) = some r) ∧
    (∀ r : SerializedSpikeFindingResult, bytesWF r.mask.buffer →
      deserializeSFResult (serializeSFResult r) = some r) := by
  constructor
  · intro r hwf
    have e1 : deserializePMResult (serializePMResult r) =
        match optionAll ((r.zap_channels.map (fun z : ℤ => JVal.num (z : ℚ))).map jInt),
          optionAll ((r.feature_values.map (fun nv => (nv.1, serializeNdarray nv.2))).map
            (fun kv => (deserializeNdarray kv.2).map (fun a => (kv.1, a)))),
          optionAll ((r.feature_stats.map (fun nv => (nv.1, serializeStats nv.2))).map
            (fun kv => (deserializeStats kv.2).map (fun s => (kv.1, s)))),
          deserializeNdarray (serializeNdarray r.mask) with
        | some zc, some fv, some fs, some m =>
          some (SerializedProfileMaskingResult.mk r.q zc fv fs m)
        | _, _, _, _ => none := rfl
    rw [e1, List.map_map, List.map_map, List.map_map]
    rw [optionAll_map_eq r.zap_channels (jInt ∘ fun z : ℤ => JVal.num (z : ℚ)) (fun z => z)
      (fun z _ => jInt_roundtrip z)]
    rw [optionAll_map_eq r.feature_values
      ((fun kv : String × JVal => (deserializeNdarray kv.2).map (fun a => (kv.1, a))) ∘
        (fun nv => (nv.1, serializeNdarray nv.2))) (fun nv => nv)
      (fun kv hkv => by
        show (deserializeNdarray (serializeNdarray kv.2)).map (fun a => (kv.1, a)) = some kv
        rw [ndarray_roundtrip kv.2 (hwf.2 kv hkv)]
        rfl)]
    rw [optionAll_map_eq r.feature_stats
      ((fun kv : String × JVal => (deserializeStats kv.2).map (fun s => (kv.1, s))) ∘
        (fun nv => (nv.1, serializeStats nv.2))) (fun nv => nv)
      (fun kv _ => by
        show (deserializeStats (serializeStats kv.2)).map (fun s => (kv.1, s)) = some kv
        rw [stats_roundtrip kv.2]
        rfl)]
    rw [ndarray_roundtrip r.mask hwf.1, List.map_id', List.map_id', List.map_id']
  · intro r hwf
    have e1 : deserializeSFResult (serializeSFResult r) =
        match optionAll ((r.zap_channels.map (fun z : ℤ => JVal.num (z : ℚ))).map jInt),
          deserializeNdarray (serializeNdarray r.mask) with
        | some zc, some m => some (SerializedSpikeFindingResult.mk r.q zc m)
        | _, _ => none := rfl
    rw [e1, List.map_map]
    rw [optionAll_map_eq r.zap_channels (jInt ∘ fun z : ℤ => JVal.num (z : ℚ)) (fun z => z)
      (fun z _ => jInt_roundtrip z)]
    rw [ndarray_roundtrip r.mask hwf, List.map_id']

/-- Witness for claim C7 at concrete records. -/
theorem serialization_roundtrip_witness :
    pmRecordWF witPMRecord ∧ bytesWF witSFRecord.mask.buffer ∧
    deserializePMResult (serializePMResult witPMRecord) = some witPMRecord ∧
    deserializeSFResult (serializeSFResult witSFRecord) = some witSFRecord := by
  refine ⟨?_, ?_, ?_, ?_⟩
  · exact ⟨by intro b hb; fin_cases hb <;> norm_num,
      by intro nv hnv; fin_cases hnv; intro b hb; fin_cases hb <;> norm_num⟩
  · intro b hb; fin_cases hb <;> norm_num
  · exact serialization_roundtrip.1 witPMRecord
      ⟨by intro b hb; fin_cases hb <;> norm_num,
       by intro nv hnv; fin_cases hnv; intro b hb; fin_cases hb <;> norm_num⟩
  · exact serialization_roundtrip.2 witSFRecord (by intro b hb; fin_cases hb <;> norm_num)

/-- Witness for claim C1 at a concrete registry, cube and configuration. -/
theorem profile_mask_characterization_witness :
    (inBoundsZap [0] 2).length ≠ 2 ∧
    (∃ r, profileMask tinyRegistry (zeroCube 1 2 2) ["f"] 2 [0] = .ok r ∧
      (∀ (i : Fin 1) (c : Fin 2), r.mask i c = true ↔
        (((c : ℕ) : ℤ) ∈ inBoundsZap [0] 2 ∨
         ∃ name f, name ∈ ["f"] ∧ getFeature tinyRegistry name = some f ∧
           specFeatureOutlier (zeroCube 1 2 2) [0] 2 f i c)) ∧
      (∀ (i : Fin 1) (c : Fin 2),
        ((c : ℕ) : ℤ) ∈ inBoundsZap [0] 2 → r.mask i c = true)) :=
  ⟨by decide, profile_mask_characterization tinyRegistry (zeroCube 1 2 2) ["f"] 2 [0]
    (by decide) (by decide) (by decide) ⟨1, by decide⟩⟩
